import Mathlib

/-!
# Verification of the Generation Session Bridge (`AppleLLMImpl.swift`)

Shallow embedding of the bridge between the JavaScript host and Apple's
on-device model runtime, as implemented in
`src/patches/react-native-ai-apple/ios/AppleLLMImpl.swift`, together with
proofs settling the frozen claims about it.

Conventions of the embedding:
* Swift `[String: Any]` dictionaries (the generic schema descriptions,
  messages and options crossing the bridge) are modelled as association
  lists of `JVal`, a JSON-like value type.  Swift's conditional casts
  (`as? String`, `as? Double`, ...) become partial projections out of
  `JVal`.
* Swift `Double` values are modelled as exact rationals (`ℚ`); every
  finite binary64 value is an exact rational, and the predicate `isF64`
  identifies the rationals that are finite binary64 values.  The
  `Double.nextUp` / `Double.nextDown` operations of the Swift standard
  library are modelled by `nextUpQ` / `nextDownQ` on those rationals.
* Swift `throws` functions become `Except AppleLLMError`.
* The concurrent streaming-session lifecycle (`generateStream`,
  `cancelStream`, the spawned task) is modelled as a small-step state
  machine whose steps may be interleaved arbitrarily by a schedule.
-/

/-- JSON-like values crossing the React-Native bridge: the payloads stored
in a Swift `[String: Any]` dictionary (strings, `NSNumber`s, booleans,
arrays, nested dictionaries, `NSNull`). -/
inductive JVal where
  | str (s : String)
  | num (q : ℚ)
  | bool (b : Bool)
  | arr (xs : List JVal)
  | obj (kvs : List (String × JVal))
  | null

/-- A Swift `[String: Any]` dictionary.  Swift dictionaries are unordered
and have unique keys; we model them as association lists and look up the
first matching key. -/
abbrev Dict := List (String × JVal)

/-- `d[key]` — dictionary subscript, returning `nil` when absent. -/
def jLookup : Dict → String → Option JVal
  | [], _ => none
  | (k, v) :: rest, key => if k = key then some v else jLookup rest key

/-- Swift `value as? String`. -/
def asString : Option JVal → Option String
  | some (.str s) => some s
  | _ => none

/-- Swift `value as? Double`: an `NSNumber` bridges to its exact `Double`
value (all numbers reaching the bridge are finite doubles, so the rational
is exact).  Non-numbers fail the cast. -/
def asDouble : Option JVal → Option ℚ
  | some (.num q) => some q
  | _ => none

/-- Swift `value as? Int`: succeeds exactly when the `NSNumber` holds an
integral value. -/
def asInt : Option JVal → Option ℤ
  | some (.num q) => if q.den = 1 then some q.num else none
  | _ => none

/-- All-strings check used by `asStringList`. -/
def strList : List JVal → Option (List String)
  | [] => some []
  | .str s :: rest => (strList rest).map (s :: ·)
  | _ => none

/-- Swift `value as? [String]`: succeeds exactly when the value is an
array all of whose elements are strings. -/
def asStringList : Option JVal → Option (List String)
  | some (.arr xs) => strList xs
  | _ => none

/-- All-dictionaries check used by `asDictList`. -/
def dictList : List JVal → Option (List Dict)
  | [] => some []
  | .obj kvs :: rest => (dictList rest).map (kvs :: ·)
  | _ => none

/-- Swift `value as? [[String: Any]]`. -/
def asDictList : Option JVal → Option (List Dict)
  | some (.arr xs) => dictList xs
  | _ => none

/-- Swift `value as? [String: Any]`. -/
def asDict : Option JVal → Option Dict
  | some (.obj kvs) => some kvs
  | _ => none

/-- The error enumeration of the library (`AppleLLMError`); its cases are
taken from the uses in `AppleLLMImpl.swift` (`invalidSchema(String)`,
`invalidMessage(String)`, `conflictingSamplingMethods`,
`toolCallError(Error)`, `unknownToolCallError`, `unsupportedOS`).  A
wrapped `Error` is modelled by its message string. -/
inductive AppleLLMError where
  | invalidSchema (msg : String)
  | invalidMessage (msg : String)
  | conflictingSamplingMethods
  | toolCallError (msg : String)
  | unknownToolCallError
  | unsupportedOS
deriving DecidableEq, Repr

/-- A `GenerationGuide` attached to a `DynamicGenerationSchema` leaf:
`anyOf` (string enumeration), `pattern` (a compiled regex, modelled by its
source text), and the four typed inclusive bounds. -/
inductive GenGuide where
  | anyOfStrings (vals : List String)
  | patternGuide (source : String)
  | maximumInt (n : ℤ)
  | minimumInt (n : ℤ)
  | maximumDouble (q : ℚ)
  | minimumDouble (q : ℚ)
deriving DecidableEq, Repr

/-- The `DynamicGenerationSchema` tree produced by the schema translator.
A property of an object schema is `(name, description, schema,
isOptional)`. -/
inductive DynSchema where
  | anyOfSchema (name : String) (description : Option String) (variants : List DynSchema)
  | objectSchema (name : String) (description : Option String)
      (properties : List (String × Option String × DynSchema × Bool))
  | arrayOf (element : DynSchema) (minimumElements maximumElements : Option ℤ)
  | stringType (guides : List GenGuide)
  | intType (guides : List GenGuide)
  | doubleType (guides : List GenGuide)
  | boolType (guides : List GenGuide)

/-- Swift `Int(d)` for a finite `Double d`: truncation toward zero. -/
def swiftInt (q : ℚ) : ℤ := if 0 ≤ q then ⌊q⌋ else ⌈q⌉

/-! ## The binary64 model

Finite IEEE-754 binary64 values are exactly the rationals `m * 2 ^ e` with
`|m| < 2 ^ 53` and `-1074 ≤ e ≤ 971`.  `Double.nextUp` and
`Double.nextDown` from the Swift standard library are modelled on the
rationals satisfying this predicate; their value on rationals that are not
finite doubles is immaterial (such values never cross the bridge). -/

/-- `q` is the exact value of a finite binary64 floating-point number. -/
def isF64 (q : ℚ) : Prop :=
  ∃ m e : ℤ, |m| < 2 ^ 53 ∧ -1074 ≤ e ∧ e ≤ 971 ∧ q = (m : ℚ) * (2 : ℚ) ^ e

/-- Successor of a positive finite double: adds one unit in the last
place.  The gap above a positive value `p` with `2^L ≤ p < 2^(L+1)` is
`2 ^ max (-1074) (L - 52)`. -/
def posNextUp (p : ℚ) : ℚ :=
  p + (2 : ℚ) ^ (max (-1074) (Int.log 2 p - 52))

/-- Predecessor of a positive finite double.  At an exact (normal) power
of two the gap below is half the gap above. -/
def posNextDown (p : ℚ) : ℚ :=
  let L := Int.log 2 p
  if p = (2 : ℚ) ^ L ∧ -1074 < L - 52 then p - (2 : ℚ) ^ (L - 53)
  else p - (2 : ℚ) ^ (max (-1074) (L - 52))

/-- Model of Swift `Double.nextUp` on exact values of finite doubles. -/
def nextUpQ (q : ℚ) : ℚ :=
  if q = 0 then (2 : ℚ) ^ (-1074 : ℤ)
  else if 0 < q then posNextUp q
  else -(posNextDown (-q))

/-- Model of Swift `Double.nextDown` on exact values of finite doubles
(IEEE symmetry: `nextDown q = -(nextUp (-q))`). -/
def nextDownQ (q : ℚ) : ℚ := -(nextUpQ (-q))

/-! ## The schema translator (`AppleLLMSchemaParser`) -/

/-- `parseNumberSchema(from:)` — translation of `"number"` / `"integer"`
schema descriptions.  Mirrors the Swift source: the `enum` branch fires
only when `schemaDict["enum"] as? [String]` succeeds; then `multipleOf`
is rejected; then the bounds are tried in the order `maximum`, `minimum`,
`exclusiveMaximum`, `exclusiveMinimum`, each read via `as? Double`; the
first successful read returns.  (`schemaDict["type"] as! String` cannot
trap here because the function is only invoked for the `"number"` and
`"integer"` type tags.) -/
def parseNumberSchema (d : Dict) : Except AppleLLMError DynSchema :=
  let isInt : Bool := asString (jLookup d "type") == some "integer"
  match asStringList (jLookup d "enum") with
  | some enumValues => .ok (.stringType [.anyOfStrings enumValues])
  | none =>
    if (jLookup d "multipleOf").isSome then
      .error (.invalidSchema "MultipleOf is not supported by Apple Foundational models.")
    else match asDouble (jLookup d "maximum") with
    | some maximum =>
        .ok (if isInt then .intType [.maximumInt (swiftInt maximum)]
             else .doubleType [.maximumDouble maximum])
    | none => match asDouble (jLookup d "minimum") with
    | some minimum =>
        .ok (if isInt then .intType [.minimumInt (swiftInt minimum)]
             else .doubleType [.minimumDouble minimum])
    | none => match asDouble (jLookup d "exclusiveMaximum") with
    | some exclusiveMaximum =>
        .ok (if isInt then .intType [.maximumInt (swiftInt exclusiveMaximum - 1)]
             else .doubleType [.maximumDouble (nextDownQ exclusiveMaximum)])
    | none => match asDouble (jLookup d "exclusiveMinimum") with
    | some exclusiveMinimum =>
        .ok (if isInt then .intType [.minimumInt (swiftInt exclusiveMinimum + 1)]
             else .doubleType [.minimumDouble (nextUpQ exclusiveMinimum)])
    | none => .ok (if isInt then .intType [] else .doubleType [])

/-- Compilation of a Swift `Regex` from a pattern string (`try
Regex(pattern)`).  The Swift regex compiler is outside the repository
sources; its syntax check is modelled as always succeeding, which is
adequate because no claim concerns `InvalidPattern`. -/
def swiftRegexCompiles (_pattern : String) : Bool := true

/-- `parseStringSchema(from:)`: `enum` (as `[String]`) wins, else a
`pattern` string is compiled, else an unconstrained string. -/
def parseStringSchema (d : Dict) : Except AppleLLMError DynSchema :=
  match asStringList (jLookup d "enum") with
  | some enumValues => .ok (.stringType [.anyOfStrings enumValues])
  | none =>
    match asString (jLookup d "pattern") with
    | some pattern =>
        if swiftRegexCompiles pattern then
          .ok (.stringType [.patternGuide pattern])
        else
          .error (.invalidSchema ("Invalid regex pattern: " ++ pattern))
    | none => .ok (.stringType [])

/-- `parseBooleanSchema(from:)`. -/
def parseBooleanSchema (_d : Dict) : Except AppleLLMError DynSchema :=
  .ok (.boolType [])

/-- The `UnsupportedSchemaKind` message of `parseDynamicSchema`'s default
branch (`"Unsupported schema type: \(type ?? "unknown")..."`). -/
def unsupportedSchemaMsg (ty : Option String) : String :=
  "Unsupported schema type: " ++ ty.getD "unknown" ++
    ". Supported types: object, array, string, number, integer, boolean"

mutual

/-- `parseDynamicSchema(from:)` — recursive descent over a generic schema
description.  `anyOf` (when it casts to an array of dictionaries) takes
priority over the `type` tag; then the tag dispatches to the per-kind
translators; a missing or unrecognized tag is an error.  The `fuel`
parameter is a totality device: every call site passes at least the size
of the dictionary, which always suffices, so the `fuel = 0` branch is
unreachable from the modelled entry points. -/
def parseDynamicSchema : Nat → Dict → Except AppleLLMError DynSchema
  | 0, _ => .error (.invalidSchema "out of fuel")
  | fuel + 1, d =>
    match asDictList (jLookup d "anyOf") with
    | some anyOfArray => do
        let parsed ← parseSchemaList fuel anyOfArray
        .ok (.anyOfSchema ((asString (jLookup d "title")).getD "")
              (asString (jLookup d "description")) parsed)
    | none =>
      match asString (jLookup d "type") with
      | some "object" => parseObjectSchema fuel d
      | some "array" => parseArraySchema fuel d
      | some "string" => parseStringSchema d
      | some "number" => parseNumberSchema d
      | some "integer" => parseNumberSchema d
      | some "boolean" => parseBooleanSchema d
      | ty => .error (.invalidSchema (unsupportedSchemaMsg ty))

/-- `parseObjectSchema(from:)`: each declared property is translated
recursively; a property is optional unless named in `required`; a missing
`properties` dictionary yields an object with no properties.  (Swift
iterates the `properties` dictionary in unspecified order; the model
iterates in list order.) -/
def parseObjectSchema : Nat → Dict → Except AppleLLMError DynSchema
  | fuel, d =>
    match asDict (jLookup d "properties") with
    | some propertiesDict => do
        let requiredFields := (asStringList (jLookup d "required")).getD []
        let props ← parsePropList fuel requiredFields propertiesDict
        .ok (.objectSchema ((asString (jLookup d "title")).getD "")
              (asString (jLookup d "description")) props)
    | none =>
        .ok (.objectSchema ((asString (jLookup d "title")).getD "")
              (asString (jLookup d "description")) [])

/-- `parseArraySchema(from:)`: requires an `items` sub-schema;
`minItems` / `maxItems` pass through. -/
def parseArraySchema : Nat → Dict → Except AppleLLMError DynSchema
  | fuel, d =>
    match asDict (jLookup d "items") with
    | some itemsSchema => do
        let item ← parseDynamicSchema fuel itemsSchema
        .ok (.arrayOf item (asInt (jLookup d "minItems")) (asInt (jLookup d "maxItems")))
    | none => .error (.invalidSchema "Array schema must have items definition")

/-- Translation of each element of an `anyOf` array. -/
def parseSchemaList : Nat → List Dict → Except AppleLLMError (List DynSchema)
  | _, [] => .ok []
  | fuel, d :: rest => do
      let s ← parseDynamicSchema fuel d
      let ss ← parseSchemaList fuel rest
      .ok (s :: ss)

/-- The property loop of `parseObjectSchema`: each property value must be
a dictionary, is translated recursively, and is optional unless its name
appears in the `required` list. -/
def parsePropList : Nat → List String → List (String × JVal) →
    Except AppleLLMError (List (String × Option String × DynSchema × Bool))
  | _, _, [] => .ok []
  | fuel, requiredFields, (propertyName, propertySchema) :: rest =>
    match propertySchema with
    | .obj propertySchemaDict => do
        let nested ← parseDynamicSchema fuel propertySchemaDict
        let props ← parsePropList fuel requiredFields rest
        .ok ((propertyName,
              asString (jLookup propertySchemaDict "description"),
              nested,
              !(requiredFields.contains propertyName)) :: props)
    | _ => .error (.invalidSchema ("Property " ++ propertyName ++ " schema must be an object"))

end

/-- The `GenerationSchema` wrapper (`GenerationSchema(root:dependencies:)`
with an empty dependency list; the wrapper construction itself is outside
the repository sources and is modelled as always succeeding). -/
structure GenSchema where
  root : DynSchema

mutual

/-- Executable size of a `JVal` (the derived `sizeOf` of a nested
inductive has no executable code). -/
def jvalSize : JVal → Nat
  | .arr xs => jlistSize xs + 1
  | .obj kvs => jdictSize kvs + 1
  | _ => 1

/-- Executable size of a `JVal` list. -/
def jlistSize : List JVal → Nat
  | [] => 0
  | x :: xs => jvalSize x + jlistSize xs + 1

/-- Executable size of a dictionary. -/
def jdictSize : List (String × JVal) → Nat
  | [] => 0
  | (_, v) :: rest => jvalSize v + jdictSize rest + 1

end

/-- Fuel that always suffices for `parseDynamicSchema` on `d`: the
recursion strictly descends into sub-values of the dictionary. -/
def schemaFuel (d : Dict) : Nat := jdictSize d + 1

/-- `createGenerationSchema(from:)`. -/
def createGenerationSchema (d : Dict) : Except AppleLLMError GenSchema :=
  (parseDynamicSchema (schemaFuel d) d).map GenSchema.mk

/-! ## Tools (`createTools`, `JSITool`) -/

/-- The data of a `JSITool` (its JavaScript invoker is modelled separately
by `jsiToolCall` and the continuation machine below). -/
structure JSITool where
  toolId : String
  name : String
  description : String
  parameters : GenSchema

/-- Swift's `toolDef["description"] as? String?` double-optional cast: an
absent key yields `some none`, a string yields `some (some s)`, and a
present non-string value fails the cast. -/
def asOptString : Option JVal → Option (Option String)
  | none => some none
  | some (.str s) => some (some s)
  | _ => none

/-- Swift's `toolDef["inputSchema"] as? [String: Any]?` double-optional
cast. -/
def asOptDict : Option JVal → Option (Option Dict)
  | none => some none
  | some (.obj kvs) => some (some kvs)
  | _ => none

/-- The guard-failure message `"Invalid tool definition: \(toolsDict)"`.
Swift interpolates Foundation's rendering of the whole tool array; that
rendering is outside the modelled sources, so the interpolated suffix is
abstracted away.  No claim depends on this message text. -/
def invalidToolDefMsg : String := "Invalid tool definition"

/-- Construction of one `JSITool` from one tool definition dictionary:
the guard block of the `createTools` loop followed by the `JSITool`
initializer (whose parameter schema translation can throw). -/
def mkJSITool (toolDef : Dict) : Except AppleLLMError JSITool :=
  match asString (jLookup toolDef "id"), asString (jLookup toolDef "name"),
        asOptString (jLookup toolDef "description"),
        asOptDict (jLookup toolDef "inputSchema") with
  | some toolId, some name, some description, some parameters => do
      let schema ← createGenerationSchema (parameters.getD [])
      .ok { toolId := toolId, name := name,
            description := description.getD "", parameters := schema }
  | _, _, _, _ => .error (.invalidSchema invalidToolDefMsg)

/-- The `for toolDef in toolsDict` loop of `createTools`: stops at the
first failing tool definition. -/
def mkJSIToolList : List Dict → Except AppleLLMError (List JSITool)
  | [] => .ok []
  | toolDef :: rest => do
      let t ← mkJSITool toolDef
      let ts ← mkJSIToolList rest
      .ok (t :: ts)

/-- `createTools(from:toolInvoker:)`: a missing or non-castable `tools`
entry yields no tools; otherwise every tool definition must construct. -/
def createTools (options : Dict) : Except AppleLLMError (List JSITool) :=
  match asDictList (jLookup options "tools") with
  | none => .ok []
  | some toolsDict => mkJSIToolList toolsDict

/-! ## Tool invocation result classification (`JSITool.call`) -/

mutual

/-- Rendering used to model `JSONSerialization.data(withJSONObject:
options: .prettyPrinted)` followed by UTF-8 decoding.  The exact
whitespace of Foundation's pretty-printer is outside the modelled
sources; this rendering stands in for it (no claim inspects the text). -/
def renderJSON : JVal → String
  | .null => "null"
  | .bool b => cond b "true" "false"
  | .num q => toString q
  | .str s => "\"" ++ s ++ "\""
  | .arr xs => "[" ++ renderJList xs ++ "]"
  | .obj kvs => "\x7b" ++ renderJPairs kvs ++ "\x7d"

/-- Comma-separated rendering of array elements. -/
def renderJList : List JVal → String
  | [] => ""
  | [x] => renderJSON x
  | x :: xs => renderJSON x ++ ", " ++ renderJList xs

/-- Comma-separated rendering of object members. -/
def renderJPairs : List (String × JVal) → String
  | [] => ""
  | [(k, v)] => "\"" ++ k ++ "\": " ++ renderJSON v
  | (k, v) :: rest => "\"" ++ k ++ "\": " ++ renderJSON v ++ ", " ++ renderJPairs rest

end

/-- `JSONSerialization` accepts only a top-level array or dictionary (the
source passes no `.fragmentsAllowed` option); every `JVal` leaf is an
encodable JSON fragment, so serialization succeeds exactly on those two
shapes. -/
def jsonSerializeIfValid (v : JVal) : Option String :=
  match v with
  | .arr _ => some (renderJSON v)
  | .obj _ => some (renderJSON v)
  | _ => none

/-- Classification of the host callback's `(result, error)` pair in
`JSITool.call`: an error rejects the call with `ToolInvocationError`; a
string result is returned verbatim; a non-nil serializable result is
returned as formatted JSON; anything else fails `UnknownToolResult`. -/
def jsiToolCall (result : Option JVal) (error : Option String) :
    Except AppleLLMError String :=
  match error with
  | some e => .error (.toolCallError e)
  | none =>
    match result with
    | some (.str output) => .ok output
    | some v =>
        match jsonSerializeIfValid v with
        | some jsonString => .ok jsonString
        | none => .error .unknownToolCallError
    | none => .error .unknownToolCallError

/-! ## The single-resolution continuation

Modelled from the spec: the single-resolution continuation primitive that
`JSITool.call` suspends on (`withCheckedThrowingContinuation` of the Swift
standard library) is not part of the repository sources.  Per §4.4 of the
spec it enforces single resolution: the first `resume` delivers its value
and every later `resume` is a detected, reported misuse that delivers
nothing. -/
structure ContState where
  resumed : Bool
  delivered : Option (Except AppleLLMError String)
  misuseReported : Bool
deriving Repr

/-- The unresumed continuation handed to the host callback. -/
def contInit : ContState :=
  { resumed := false, delivered := none, misuseReported := false }

/-- `continuation.resume`: the first call delivers, any later call is
detected and reported without delivering. -/
def resumeCont (c : ContState) (v : Except AppleLLMError String) : ContState :=
  if c.resumed then { c with misuseReported := true }
  else { resumed := true, delivered := some v, misuseReported := false }

/-- One invocation of the host callback `(result, error) -> Void` handed
out by `JSITool.call`: it resumes the continuation with the classified
outcome. -/
def toolResponder (c : ContState) (result : Option JVal) (error : Option String) :
    ContState :=
  resumeCont c (jsiToolCall result error)

/-! ## Transcript construction (`createTranscriptAndPrompt`) -/

/-- A transcript segment (`Transcript.Segment.text`). -/
inductive Segment where
  | text (content : String)
deriving DecidableEq, Repr

/-- A `Transcript.ToolDefinition`. -/
structure ToolDefinition where
  name : String
  description : String
  parameters : GenSchema

/-- A `Transcript.Entry`. -/
inductive TEntry where
  | instructions (segments : List Segment) (toolDefinitions : List ToolDefinition)
  | prompt (segments : List Segment)
  | response (assetIDs : List String) (segments : List Segment)

/-- The tool-definition list attached to an `Instructions` entry:
`tools.map { Transcript.ToolDefinition(name:description:parameters:) }`. -/
def toolDefinitionsOf (tools : List JSITool) : List ToolDefinition :=
  tools.map fun t => { name := t.name, description := t.description, parameters := t.parameters }

/-- The body of the message loop: one non-trailing message becomes one
entry, or the loop throws. -/
def entryOfMessage (tools : List JSITool) (message : Dict) :
    Except AppleLLMError TEntry :=
  match asString (jLookup message "role"), asString (jLookup message "content") with
  | some role, some content =>
      let segment := Segment.text content
      match role with
      | "system" => .ok (.instructions [segment] (toolDefinitionsOf tools))
      | "user" => .ok (.prompt [segment])
      | "assistant" => .ok (.response [] [segment])
      | _ => .error (.invalidMessage role)
  | _, _ => .error (.invalidMessage "Message must have role and content")

/-- The `for message in transcriptMessages` loop. -/
def entriesOfMessages (tools : List JSITool) : List Dict →
    Except AppleLLMError (List TEntry)
  | [] => .ok []
  | message :: rest => do
      let e ← entryOfMessage tools message
      let es ← entriesOfMessages tools rest
      .ok (e :: es)

/-- `createTranscriptAndPrompt(from:tools:)`: rejects an empty message
list; requires the last message to be a user message with string content,
which becomes the separately returned prompt; every other message is
translated by the loop. -/
def createTranscriptAndPrompt (messages : List Dict) (tools : List JSITool) :
    Except AppleLLMError (List TEntry × String) :=
  match messages.getLast? with
  | none => .error (.invalidMessage "Messages array cannot be empty")
  | some lastMessage =>
    match asString (jLookup lastMessage "role"), asString (jLookup lastMessage "content") with
    | some lastRole, some userPrompt =>
        if lastRole = "user" then do
          let entries ← entriesOfMessages tools messages.dropLast
          .ok (entries, userPrompt)
        else .error (.invalidMessage "Last message must be from user role")
    | _, _ => .error (.invalidMessage "Last message must be from user role")

/-! ## Generation options (`createGenerationOptions`) -/

/-- `GenerationOptions.SamplingMode`. -/
inductive SamplingMode where
  | greedy
  | randomTopP (probabilityThreshold : ℚ)
  | randomTopK (top : ℤ)
deriving DecidableEq, Repr

/-- `GenerationOptions`. -/
structure GenOptions where
  sampling : SamplingMode
  temperature : Option ℚ
  maximumResponseTokens : Option ℤ
deriving DecidableEq, Repr

/-- `createGenerationOptions(from:)`: `temperature` and `maxTokens` are
copied when castable; `topP` and `topK` are mutually exclusive; `topP`
selects nucleus sampling, else `topK` selects top-k, else greedy. -/
def createGenerationOptions (options : Dict) : Except AppleLLMError GenOptions :=
  let temperature := asDouble (jLookup options "temperature")
  let maximumResponseTokens := asInt (jLookup options "maxTokens")
  let topP := asDouble (jLookup options "topP")
  let topK := asInt (jLookup options "topK")
  if topP.isSome && topK.isSome then .error .conflictingSamplingMethods
  else
    let samplingMode :=
      match topP with
      | some p => SamplingMode.randomTopP p
      | none =>
        match topK with
        | some k => SamplingMode.randomTopK k
        | none => SamplingMode.greedy
    .ok { sampling := samplingMode, temperature := temperature,
          maximumResponseTokens := maximumResponseTokens }

/-! ## Request construction and the streaming-session lifecycle

`generateStream` spawns an unstructured task (line 108 of the source)
whose body performs the request construction (`createTools`,
`createTranscriptAndPrompt`, `createGenerationOptions`, and the output
schema translation when present), then iterates the model's response
stream emitting `onUpdate` chunks, then emits `onComplete` — guarded by
`!Task.isCancelled` — or, from the `catch` block, `onError`, and finally
removes its own entry from `streamTasks`.  After spawning the task,
`generateStream` itself stores it in `streamTasks` (line 153) and returns
the fresh stream id.  `cancelStream` cancels and removes a present entry
and does nothing otherwise.

The task runs concurrently with the remainder of `generateStream` and
with any `cancelStream` calls, so the model is a small-step machine: each
observable action is one atomic step, and a schedule interleaves the
caller's registration step, the task's steps and cancellation steps
arbitrarily.  The `!Task.isCancelled` read (line 141) and the
`onComplete` call it guards (line 142) are two separate atomic steps —
the source has no synchronization between them, so a `cancelStream` can
land in that window.  The model runtime's behavior is
an oracle: the chunk list the stream yields and whether it then ends
normally or throws (a throw also models `CancellationError` raised by the
stream after the task is cancelled).  The model-unavailable fast path and
the pre-iOS-26 throw are outside the modelled claims. -/

/-- Everything fixed about one streaming request: the caller's arguments
and the runtime oracle. -/
structure StreamParams where
  messages : List Dict
  options : Dict
  chunks : List String
  streamError : Option String

/-- The construction phase shared by `generateText` and `generateStream`:
tools, transcript and prompt, generation options, and — when the
`schema` option casts to a dictionary — the output schema. -/
def requestConstruct (messages : List Dict) (options : Dict) :
    Except AppleLLMError Unit := do
  let tools ← createTools options
  let _ ← createTranscriptAndPrompt messages tools
  let _ ← createGenerationOptions options
  match asDict (jLookup options "schema") with
  | some schemaOption => do
      let _ ← createGenerationSchema schemaOption
      .ok ()
  | none => .ok ()

/-- `localizedDescription` of a thrown `AppleLLMError` (defined outside
the modelled sources; rendered by the case's payload — no claim inspects
the exact text). -/
def errMsg : AppleLLMError → String
  | .invalidSchema m => m
  | .invalidMessage m => m
  | .conflictingSamplingMethods => "Conflicting sampling methods"
  | .toolCallError m => m
  | .unknownToolCallError => "Unknown tool result"
  | .unsupportedOS => "Unsupported OS"

/-- Observable actions of one streaming session, most recent first in the
recorded trace: the emitted events (`onUpdate`, `onComplete`, `onError`)
and the occurrences of `cancelStream` calls for its id. -/
inductive Act where
  | update (chunk : String)
  | complete
  | error (message : String)
  | cancelCall
deriving DecidableEq, Repr

/-- Program counter of the spawned streaming task.  `emitComplete` is
the point after the `!Task.isCancelled` read (line 141) returned false
and before the `onComplete` call (line 142) has executed. -/
inductive TaskPC where
  | construct
  | emitting (rest : List String)
  | finish (failure : Option String)
  | emitComplete
  | cleanup
  | done
deriving DecidableEq, Repr

/-- State of one streaming session: whether `streamTasks` holds its
entry, the task's cooperative cancellation flag, whether the caller's
registration (line 153) has executed, the task's program counter, the
recorded trace (most recent action first), and two ghost flags:
`raceInsert` marks that the registration executed after the task had
already finished, and `raceCancelDuringEmit` marks that a `cancelStream`
call landed between the task's `!Task.isCancelled` read and its
`onComplete` call. -/
structure StreamState where
  inRegistry : Bool
  cancelled : Bool
  registered : Bool
  pc : TaskPC
  trace : List Act
  raceInsert : Bool
  raceCancelDuringEmit : Bool

/-- The initial state: the task is spawned but has not run, nothing is
registered, nothing is recorded. -/
def streamInit : StreamState :=
  { inRegistry := false, cancelled := false, registered := false,
    pc := .construct, trace := [], raceInsert := false,
    raceCancelDuringEmit := false }

/-- The caller's `streamTasks[streamId] = task` (line 153).  The ghost
flag records the race in which the task finished (and ran its own
removal) before this insert executed: the inserted entry is then stale. -/
def registerStreamTask (σ : StreamState) : StreamState :=
  { σ with inRegistry := true, registered := true,
           raceInsert := σ.raceInsert || (σ.pc == .done) }

/-- `cancelStream(streamId)`: when the entry is present, `task.cancel()`
then removal; otherwise nothing.  The call itself is recorded in the
trace either way, and the `raceCancelDuringEmit` ghost flag records a
cancellation landing between the task's cancellation check and its
`onComplete` call. -/
def cancelStream (σ : StreamState) : StreamState :=
  if σ.inRegistry then
    { σ with trace := .cancelCall :: σ.trace, cancelled := true, inRegistry := false,
             raceCancelDuringEmit :=
               σ.raceCancelDuringEmit || (σ.pc == .emitComplete) }
  else
    { σ with trace := .cancelCall :: σ.trace,
             raceCancelDuringEmit :=
               σ.raceCancelDuringEmit || (σ.pc == .emitComplete) }

/-- One atomic step of the spawned task. -/
def streamTaskStep (P : StreamParams) (σ : StreamState) : StreamState :=
  match σ.pc with
  | .construct =>
      match requestConstruct P.messages P.options with
      | .error e => { σ with pc := .finish (some (errMsg e)) }
      | .ok _ => { σ with pc := .emitting P.chunks }
  | .emitting (chunk :: rest) =>
      { σ with trace := .update chunk :: σ.trace, pc := .emitting rest }
  | .emitting [] => { σ with pc := .finish P.streamError }
  | .finish (some message) =>
      { σ with trace := .error message :: σ.trace, pc := .cleanup }
  | .finish none =>
      if σ.cancelled then { σ with pc := .cleanup }
      else { σ with pc := .emitComplete }
  | .emitComplete =>
      { σ with trace := .complete :: σ.trace, pc := .cleanup }
  | .cleanup => { σ with inRegistry := false, pc := .done }
  | .done => σ

/-- Schedule labels: who takes the next atomic step. -/
inductive Lab where
  | register
  | taskStep
  | cancel
deriving DecidableEq, Repr

/-- Dispatch of one scheduled step. -/
def streamStep (P : StreamParams) (σ : StreamState) : Lab → StreamState
  | .register => registerStreamTask σ
  | .taskStep => streamTaskStep P σ
  | .cancel => cancelStream σ

/-- Execution of a whole schedule from the initial state. -/
def streamRun (P : StreamParams) (sched : List Lab) : StreamState :=
  sched.foldl (streamStep P) streamInit

/-- A schedule is well formed when no `cancelStream` call precedes the
caller's registration step: the caller can only learn the stream id from
`generateStream`'s return value, and the return (line 155) executes after
the registration (line 153). -/
def wfSched : Bool → List Lab → Bool
  | _, [] => true
  | true, _ :: rest => wfSched true rest
  | false, .register :: rest => wfSched true rest
  | false, .cancel :: _ => false
  | false, .taskStep :: rest => wfSched false rest

/-- Terminal events: completion and error. -/
def isTerminal : Act → Bool
  | .complete => true
  | .error _ => true
  | _ => false

/-- Number of terminal events in a trace. -/
def terminalCount (tr : List Act) : Nat := tr.countP isTerminal

/-- `afterCancelP p tr = true` iff some action satisfying `p` was
recorded after some `cancelStream` call (the trace is most recent
first). -/
def afterCancelP (p : Act → Bool) : List Act → Bool
  | [] => false
  | a :: tr => (p a && tr.contains .cancelCall) || afterCancelP p tr

/-! ## The one-shot path (`generateText`)

`generateText` runs the same construction phase inside its task; a throw
from any stage reaches the `catch` block, which rejects the caller's
promise with code `"AppleLLM"` and the error's description.  One-shot
requests never touch `streamTasks`.  The model runtime's behavior for the
single response is an oracle. -/

/-- Outcome of `generateText` toward the JavaScript caller: `resolve`
with the response payload or `reject` with `(code, message)`. -/
def generateTextOutcome (messages : List Dict) (options : Dict)
    (runtime : Except String String) : Except (String × String) String :=
  match requestConstruct messages options with
  | .error e => .error ("AppleLLM", errMsg e)
  | .ok _ =>
    match runtime with
    | .error m => .error ("AppleLLM", m)
    | .ok r => .ok r

/-! ## Theorems -/

/-- Reduction of a monadic bind on a successful `Except`. -/
@[simp] theorem exc_bind_ok {ε α β : Type} (a : α) (f : α → Except ε β) :
    (Except.ok a >>= f) = f a := rfl

/-- Reduction of a monadic bind on a failed `Except`. -/
@[simp] theorem exc_bind_error {ε α β : Type} (e : ε) (f : α → Except ε β) :
    ((Except.error e : Except ε α) >>= f) = Except.error e := rfl

/-- Reduction of `Except.map` on a failure. -/
@[simp] theorem exc_map_error {ε α β : Type} (e : ε) (f : α → β) :
    (Except.error e : Except ε α).map f = Except.error e := rfl

/-- Reduction of `Except.map` on a success. -/
@[simp] theorem exc_map_ok {ε α β : Type} (a : α) (f : α → β) :
    (Except.ok a : Except ε α).map f = Except.ok (f a) := rfl

/-- `v` is a Swift `String` (succeeds the `result as? String` cast). -/
def isStringValue : JVal → Bool
  | .str _ => true
  | _ => false

/-- Claim C5: for every tool invocation, a rejected host continuation
fails the call with `ToolInvocationError` carrying that error, taking
precedence over any result value; a string resolution is returned
verbatim; a non-string JSON-serializable resolution returns its formatted
JSON serialization; and any other resolution (nil, or serialization
fails) fails the call with `UnknownToolResult`. -/
theorem spec_c5 :
    (∀ result errorMessage,
       jsiToolCall result (some errorMessage) = .error (.toolCallError errorMessage))
    ∧ (∀ s, jsiToolCall (some (.str s)) none = .ok s)
    ∧ (∀ v s, isStringValue v = false → jsonSerializeIfValid v = some s →
        jsiToolCall (some v) none = .ok s)
    ∧ jsiToolCall none none = .error .unknownToolCallError
    ∧ (∀ v, isStringValue v = false → jsonSerializeIfValid v = none →
        jsiToolCall (some v) none = .error .unknownToolCallError) := by
  refine ⟨fun result errorMessage => rfl, fun s => rfl, ?_, rfl, ?_⟩
  · intro v s hstr hser
    cases v <;> simp_all [jsiToolCall, isStringValue]
  · intro v hstr hser
    cases v <;> simp_all [jsiToolCall, isStringValue]

/-- Witness for C5 at concrete inputs: an error rejection, a verbatim
string, a serialized object, and a nil resolution. -/
theorem spec_c5_witness :
    jsiToolCall (some (.str "x")) (some "boom") = .error (.toolCallError "boom")
    ∧ jsiToolCall (some (.str "hello")) none = .ok "hello"
    ∧ jsiToolCall (some (.obj [("a", .num 1)])) none =
        .ok (renderJSON (.obj [("a", .num 1)]))
    ∧ jsiToolCall (some (.num 3)) none = .error .unknownToolCallError :=
  ⟨spec_c5.1 (some (.str "x")) "boom",
   spec_c5.2.1 "hello",
   spec_c5.2.2.1 (.obj [("a", .num 1)]) _ rfl rfl,
   spec_c5.2.2.2.2 (.num 3) rfl rfl⟩

/-- Claim C6: resolving or rejecting a tool-invocation continuation a
second time is detected and reported (the misuse flag is raised) rather
than silently delivering again or being silently ignored: the first
outcome delivered is unchanged by the second call.  (The continuation
primitive is modelled from the spec, §4.4.) -/
theorem spec_c6 (result₁ result₂ : Option JVal) (error₁ error₂ : Option String) :
    (toolResponder contInit result₁ error₁).misuseReported = false
    ∧ (toolResponder contInit result₁ error₁).delivered =
        some (jsiToolCall result₁ error₁)
    ∧ (toolResponder (toolResponder contInit result₁ error₁) result₂ error₂).misuseReported
        = true
    ∧ (toolResponder (toolResponder contInit result₁ error₁) result₂ error₂).delivered =
        some (jsiToolCall result₁ error₁) := by
  refine ⟨rfl, rfl, rfl, rfl⟩

/-- Helper for C10: a tool definition whose `inputSchema` is absent or an
empty dictionary never constructs. -/
theorem mkJSITool_no_schema_fails (toolDef : Dict)
    (h : jLookup toolDef "inputSchema" = none
         ∨ jLookup toolDef "inputSchema" = some (.obj [])) :
    ∃ e, mkJSITool toolDef = .error e := by
  unfold mkJSITool
  cases hid : asString (jLookup toolDef "id") with
  | none => exact ⟨_, rfl⟩
  | some toolId =>
    cases hname : asString (jLookup toolDef "name") with
    | none => exact ⟨_, rfl⟩
    | some name =>
      cases hdesc : asOptString (jLookup toolDef "description") with
      | none => exact ⟨_, rfl⟩
      | some description =>
        rcases h with h | h <;> simp [h, asOptDict, createGenerationSchema,
          schemaFuel, jdictSize, parseDynamicSchema, jLookup, asDictList, asString]

/-- Helper for C10: if any tool definition in the list fails to
construct, the whole loop fails. -/
theorem mkJSIToolList_mem_fails {toolDefs : List Dict} {toolDef : Dict}
    (hmem : toolDef ∈ toolDefs) (hfail : ∃ e, mkJSITool toolDef = .error e) :
    ∃ e, mkJSIToolList toolDefs = .error e := by
  induction toolDefs with
  | nil => cases hmem
  | cons head rest ih =>
    rcases List.mem_cons.mp hmem with rfl | hmem'
    · obtain ⟨e, he⟩ := hfail
      exact ⟨e, by simp [mkJSIToolList, he]⟩
    · cases hhd : mkJSITool head with
      | error e => exact ⟨e, by simp [mkJSIToolList, hhd]⟩
      | ok t =>
        obtain ⟨e, he⟩ := ih hmem'
        exact ⟨e, by simp [mkJSIToolList, hhd, he]⟩

/-- Claim C10: translating an empty schema description (no `type` tag, no
`anyOf` list) fails with the unsupported-schema-kind error, and
constructing a registered tool whose parameter schema is omitted or empty
(the missing schema defaults to the empty dictionary) always fails, so no
tool registers without an explicit parameter schema of a recognized
kind. -/
theorem spec_c10 :
    (∀ fuel d, jLookup d "type" = none → jLookup d "anyOf" = none →
       parseDynamicSchema (fuel + 1) d = .error (.invalidSchema (unsupportedSchemaMsg none)))
    ∧ (∀ options toolDefs toolDef,
        asDictList (jLookup options "tools") = some toolDefs →
        toolDef ∈ toolDefs →
        (jLookup toolDef "inputSchema" = none
          ∨ jLookup toolDef "inputSchema" = some (.obj [])) →
        ∃ e, createTools options = .error e) := by
  constructor
  · intro fuel d htype hanyOf
    simp [parseDynamicSchema, htype, hanyOf, asDictList, asString, unsupportedSchemaMsg]
  · intro options toolDefs toolDef htools hmem hschema
    obtain ⟨e, he⟩ :=
      mkJSIToolList_mem_fails hmem (mkJSITool_no_schema_fails toolDef hschema)
    exact ⟨e, by simp [createTools, htools, he]⟩

/-- Witness for C10: the empty schema description fails, and a tool
definition with id and name but no `inputSchema` is rejected by
`createTools`. -/
theorem spec_c10_witness :
    parseDynamicSchema 1 [] = .error (.invalidSchema (unsupportedSchemaMsg none))
    ∧ ∃ e, createTools
        [("tools", .arr [.obj [("id", .str "w"), ("name", .str "weather")]])] =
          .error e :=
  ⟨spec_c10.1 0 [] rfl rfl,
   spec_c10.2 [("tools", .arr [.obj [("id", .str "w"), ("name", .str "weather")]])]
     [[("id", .str "w"), ("name", .str "weather")]]
     [("id", .str "w"), ("name", .str "weather")] rfl (by simp) (Or.inl rfl)⟩

/-- Claim C7 (amended): for every number or integer schema description
whose enumerated value list is a list of strings (the cast
`schemaDict["enum"] as? [String]` succeeds — the wire format documented
in the source, whose JavaScript side parses the strings back to numbers),
the translator produces a string-typed schema whose sole guide is the
`EnumValues` of exactly those strings, and attaches no numeric bound
guide.  An `enum` list with non-string elements is ignored by the
translator (see the counterexample). -/
theorem spec_c7 (d : Dict) (ss : List String)
    (henum : asStringList (jLookup d "enum") = some ss) :
    parseNumberSchema d = .ok (.stringType [.anyOfStrings ss]) := by
  simp [parseNumberSchema, henum]

/-- Witness for C7 at a concrete numeric-enum schema in wire format. -/
theorem spec_c7_witness :
    parseNumberSchema [("type", .str "number"), ("enum", .arr [.str "1", .str "2"])]
      = .ok (.stringType [.anyOfStrings ["1", "2"]]) :=
  spec_c7 [("type", .str "number"), ("enum", .arr [.str "1", .str "2"])] ["1", "2"] rfl

/-- String representation of an enumerated JSON value, following the
claim's words ("the string representation of each enum value"). -/
def specJValString : JVal → String
  | .str s => s
  | .num q => toString q
  | .bool b => cond b "true" "false"
  | _ => ""

/-- Observer: the enumeration of a translated schema, defined when the
result is a string-typed schema whose sole guide is an `EnumValues`
list. -/
def enumStringsOf : DynSchema → Option (List String)
  | .stringType [.anyOfStrings vals] => some vals
  | _ => none

/-- Claim C7 as stated: every number or integer schema description
carrying an enumerated value list translates to a string-typed
`EnumValues` guide holding the string representation of each enum
value. -/
def claimC7AsStated : Prop :=
  ∀ (d : Dict) (vs : List JVal),
    (jLookup d "type" = some (.str "number") ∨ jLookup d "type" = some (.str "integer")) →
    jLookup d "enum" = some (.arr vs) →
    ∃ s, parseNumberSchema d = .ok s
      ∧ enumStringsOf s = some (vs.map specJValString)

/-- Counterexample to C7 as stated: for
`{type: "number", enum: [1, 2]}` — an enumerated value list whose
elements are numbers, not strings — the cast `enum as? [String]` fails,
the list is silently ignored, and the translator returns an unconstrained
number schema with no `EnumValues` guide at all. -/
theorem spec_c7_counterexample : ¬ claimC7AsStated := by
  intro h
  obtain ⟨s, hs, hguide⟩ :=
    h [("type", .str "number"), ("enum", .arr [.num 1, .num 2])]
      [.num 1, .num 2] (Or.inl rfl) rfl
  have hs2 : (Except.ok (DynSchema.doubleType []) : Except AppleLLMError DynSchema)
      = .ok s := hs
  cases hs2
  simp [enumStringsOf] at hguide

/-- Kind of an attached bound guide: an upper or a lower bound. -/
inductive BKind where
  | maxB
  | minB
deriving DecidableEq, Repr

/-- The bound kind of one guide, if it is a bound guide. -/
def guideBoundKind : GenGuide → Option BKind
  | .maximumInt _ => some .maxB
  | .maximumDouble _ => some .maxB
  | .minimumInt _ => some .minB
  | .minimumDouble _ => some .minB
  | _ => none

/-- The guides attached to a leaf schema. -/
def schemaGuides : DynSchema → List GenGuide
  | .stringType gs => gs
  | .intType gs => gs
  | .doubleType gs => gs
  | .boolType gs => gs
  | _ => []

/-- The kinds of the bound guides attached to a translated schema. -/
def boundKindsOf (s : DynSchema) : List BKind :=
  (schemaGuides s).filterMap guideBoundKind

/-- The bound selection prescribed by the claim's priority order,
stopping at the first present key: inclusive maximum, inclusive minimum,
exclusive maximum, exclusive minimum, no bound. -/
def specPriorityKinds (d : Dict) : List BKind :=
  if (jLookup d "maximum").isSome then [.maxB]
  else if (jLookup d "minimum").isSome then [.minB]
  else if (jLookup d "exclusiveMaximum").isSome then [.maxB]
  else if (jLookup d "exclusiveMinimum").isSome then [.minB]
  else []

/-- The value under a bound key is a number or the key is absent. -/
def numericOrAbsent : Option JVal → Bool
  | none => true
  | some (.num _) => true
  | _ => false

/-- Each of the four bound keys is absent or holds a number (the shape a
JSON schema's numeric bounds have on the wire). -/
def boundKeysWellTyped (d : Dict) : Bool :=
  numericOrAbsent (jLookup d "maximum") && numericOrAbsent (jLookup d "minimum")
    && numericOrAbsent (jLookup d "exclusiveMaximum")
    && numericOrAbsent (jLookup d "exclusiveMinimum")

/-- Shape analysis of a well-typed bound entry. -/
theorem numericOrAbsent_cases {v : Option JVal} (h : numericOrAbsent v = true) :
    v = none ∨ ∃ q, v = some (.num q) := by
  match v with
  | none => exact Or.inl rfl
  | some (.num q) => exact Or.inr ⟨q, rfl⟩
  | some (.str _) | some (.bool _) | some (.arr _) | some (.obj _) | some .null =>
      simp [numericOrAbsent] at h

/-- Claim C1: a number or integer schema description without an enum list
receives at most one bound guide, chosen by the strict priority order
inclusive maximum → inclusive minimum → exclusive maximum → exclusive
minimum → no bound; in particular a schema carrying both `minimum` and
`maximum` receives only the maximum bound and its minimum is
discarded. -/
theorem spec_c1 (d : Dict)
    (_htype : jLookup d "type" = some (.str "number")
             ∨ jLookup d "type" = some (.str "integer"))
    (henum : jLookup d "enum" = none)
    (hwt : boundKeysWellTyped d = true) :
    (∀ s, parseNumberSchema d = .ok s →
       boundKindsOf s = specPriorityKinds d ∧ (boundKindsOf s).length ≤ 1)
    ∧ (∀ qmax qmin, jLookup d "maximum" = some (.num qmax) →
        jLookup d "minimum" = some (.num qmin) →
        jLookup d "multipleOf" = none →
        parseNumberSchema d =
          .ok (if asString (jLookup d "type") == some "integer"
               then .intType [.maximumInt (swiftInt qmax)]
               else .doubleType [.maximumDouble qmax])) := by
  simp only [boundKeysWellTyped, Bool.and_eq_true] at hwt
  obtain ⟨⟨⟨h1, h2⟩, h3⟩, h4⟩ := hwt
  constructor
  · intro s hs
    cases hmul : jLookup d "multipleOf" with
    | some _ =>
        simp [parseNumberSchema, henum, asStringList, hmul] at hs
    | none =>
        rcases numericOrAbsent_cases h1 with hmax | ⟨qmax, hmax⟩ <;>
        rcases numericOrAbsent_cases h2 with hmin | ⟨qmin, hmin⟩ <;>
        rcases numericOrAbsent_cases h3 with hemax | ⟨qemax, hemax⟩ <;>
        rcases numericOrAbsent_cases h4 with hemin | ⟨qemin, hemin⟩ <;>
        simp only [parseNumberSchema, henum, asStringList, hmul, hmax, hmin,
          hemax, hemin, asDouble, Option.isSome_none, Bool.false_eq_true,
          if_false, Except.ok.injEq] at hs <;>
        subst hs <;>
        rcases Bool.eq_false_or_eq_true (asString (jLookup d "type") == some "integer")
          with hInt | hInt <;>
        simp [hInt, boundKindsOf, schemaGuides, guideBoundKind, specPriorityKinds,
          hmax, hmin, hemax, hemin]
  · intro qmax qmin hmaxL hminL hmul
    simp [parseNumberSchema, henum, asStringList, hmul, hmaxL, asDouble]

/-- Witness for C1 at `{type: "integer", minimum: 2, maximum: 7}`: only a
maximum bound is attached and the minimum is discarded. -/
theorem spec_c1_witness :
    parseNumberSchema [("type", .str "integer"), ("minimum", .num 2), ("maximum", .num 7)]
      = .ok (.intType [.maximumInt (swiftInt 7)])
    ∧ boundKindsOf (.intType [.maximumInt (swiftInt 7)]) =
        specPriorityKinds
          [("type", .str "integer"), ("minimum", .num 2), ("maximum", .num 7)] := by
  have h := spec_c1 [("type", .str "integer"), ("minimum", .num 2), ("maximum", .num 7)]
    (Or.inr rfl) rfl (by decide)
  have h2 := h.2 7 2 rfl rfl rfl
  exact ⟨h2, (h.1 _ h2).1⟩

/-- Swift `Int(_: Double)` is the identity on integral doubles. -/
theorem swiftInt_intCast (b : ℤ) : swiftInt (b : ℚ) = b := by
  unfold swiftInt
  split <;> simp


/-- The modelled `Double.nextUp` at `1.0`: one unit in the last place is
added, giving `1 + 2 ^ (-52)`. -/
theorem nextUpQ_one : nextUpQ 1 = 1 + (2 : ℚ) ^ (-52 : ℤ) := by
  norm_num [nextUpQ, posNextUp]


/-- `1 + 2 ^ (-52)` is a finite binary64 value
(`(2 ^ 52 + 1) * 2 ^ (-52)`). -/
theorem isF64_one_add_ulp : isF64 (1 + (2 : ℚ) ^ (-52 : ℤ)) := by
  refine ⟨2 ^ 52 + 1, -52, by norm_num, by norm_num, by norm_num, ?_⟩
  have h : (2 : ℚ) ^ (-52 : ℤ) = ((2 ^ 52 : ℚ))⁻¹ := by
    rw [zpow_neg]
    norm_num
  push_cast
  rw [h]
  field_simp
  norm_num


/-- No finite binary64 value lies strictly between `1` and
`1 + 2 ^ (-52)`: every representable value above `1` is at least
`1 + 2 ^ (-52)`. -/
theorem isF64_least_above_one (r : ℚ) (hr : isF64 r) (h1 : 1 < r) :
    1 + (2 : ℚ) ^ (-52 : ℤ) ≤ r := by
  obtain ⟨m, e, hm, he1, he2, rfl⟩ := hr
  have h2pos : (0 : ℚ) < 2 := by norm_num
  rcases le_or_lt (-52 : ℤ) e with he | he
  · -- the value is an integer multiple of 2 ^ (-52)
    have hn0 : 0 ≤ e + 52 := by omega
    set k : ℤ := m * 2 ^ (e + 52).toNat with hk
    have hrepr : (m : ℚ) * (2 : ℚ) ^ e = (k : ℚ) * (2 : ℚ) ^ (-52 : ℤ) := by
      rw [hk]
      push_cast
      rw [mul_assoc]
      congr 1
      rw [← zpow_natCast (2 : ℚ) (e + 52).toNat, ← zpow_add₀ (by norm_num : (2:ℚ) ≠ 0)]
      congr 1
      omega
    have hmul : ((2 : ℚ) ^ (52 : ℤ)) * ((2 : ℚ) ^ (-52 : ℤ)) = 1 := by
      rw [← zpow_add₀ (by norm_num : (2:ℚ) ≠ 0)]
      norm_num
    have hupos : (0 : ℚ) < (2 : ℚ) ^ (-52 : ℤ) := zpow_pos h2pos _
    have hklb : (2 ^ 52 : ℤ) < k := by
      by_contra hle
      push_neg at hle
      have hcast : (k : ℚ) ≤ ((2 ^ 52 : ℤ) : ℚ) := by exact_mod_cast hle
      have : (k : ℚ) * (2 : ℚ) ^ (-52 : ℤ) ≤ ((2 ^ 52 : ℤ) : ℚ) * (2 : ℚ) ^ (-52 : ℤ) :=
        mul_le_mul_of_nonneg_right hcast hupos.le
      rw [hrepr] at h1
      have h52 : ((2 ^ 52 : ℤ) : ℚ) = (2 : ℚ) ^ (52 : ℤ) := by push_cast; norm_num
      rw [h52, hmul] at this
      linarith
    have hk1 : ((2 ^ 52 + 1 : ℤ) : ℚ) ≤ (k : ℚ) := by exact_mod_cast hklb
    have : ((2 ^ 52 + 1 : ℤ) : ℚ) * (2 : ℚ) ^ (-52 : ℤ) ≤ (k : ℚ) * (2 : ℚ) ^ (-52 : ℤ) :=
      mul_le_mul_of_nonneg_right hk1 hupos.le
    rw [hrepr]
    refine le_trans (le_of_eq ?_) this
    have h52 : ((2 : ℚ) ^ (52 : ℕ)) * ((2 : ℚ) ^ (-52 : ℤ)) = 1 := by
      rw [← zpow_natCast (2 : ℚ) 52]
      exact_mod_cast hmul
    push_cast
    rw [show ((4503599627370497 : ℚ)) = 2 ^ 52 + 1 by norm_num, add_mul, one_mul, h52]
  · -- e ≤ -53: the value is below 1
    exfalso
    have hmq : (m : ℚ) < (2 : ℚ) ^ (53 : ℤ) := by
      have : (m : ℤ) < 2 ^ 53 := lt_of_le_of_lt (le_abs_self m) hm
      have h2 : ((2 ^ 53 : ℤ) : ℚ) = (2 : ℚ) ^ (53 : ℤ) := by push_cast; norm_num
      rw [← h2]
      exact_mod_cast this
    have hzpos : (0 : ℚ) < (2 : ℚ) ^ e := zpow_pos h2pos _
    have hlt : (m : ℚ) * (2 : ℚ) ^ e < (2 : ℚ) ^ (53 : ℤ) * (2 : ℚ) ^ e :=
      mul_lt_mul_of_pos_right hmq hzpos
    have hle2 : (2 : ℚ) ^ e ≤ (2 : ℚ) ^ (-53 : ℤ) :=
      zpow_le_zpow_right₀ (by norm_num) (by omega)
    have hle3 : (2 : ℚ) ^ (53 : ℤ) * (2 : ℚ) ^ e ≤ (2 : ℚ) ^ (53 : ℤ) * (2 : ℚ) ^ (-53 : ℤ) := by
      have h53pos : (0 : ℚ) < (2 : ℚ) ^ (53 : ℤ) := zpow_pos h2pos _
      exact mul_le_mul_of_nonneg_left hle2 h53pos.le
    have hone : (2 : ℚ) ^ (53 : ℤ) * (2 : ℚ) ^ (-53 : ℤ) = 1 := by
      rw [← zpow_add₀ (by norm_num : (2:ℚ) ≠ 0)]
      norm_num
    linarith


/-- Claim C8: exclusive bounds are converted to the nearest inclusive
equivalent.  For an integer schema, `exclusiveMaximum b` yields the
inclusive maximum `b - 1` and `exclusiveMinimum b` yields the inclusive
minimum `b + 1`.  For a floating-point number schema, an exclusive bound
yields the adjacent value (`nextDown` / `nextUp`); at the claim's cited
input, `exclusiveMinimum 1.0` yields `1 + 2 ^ (-52)`, which is
representable, strictly greater than `1`, and least among representable
values strictly greater than `1`. -/
theorem spec_c8 :
    (∀ (d : Dict) (b : ℤ),
       jLookup d "type" = some (.str "integer") →
       jLookup d "enum" = none → jLookup d "multipleOf" = none →
       jLookup d "maximum" = none → jLookup d "minimum" = none →
       jLookup d "exclusiveMaximum" = some (.num (b : ℚ)) →
       parseNumberSchema d = .ok (.intType [.maximumInt (b - 1)]))
    ∧ (∀ (d : Dict) (b : ℤ),
       jLookup d "type" = some (.str "integer") →
       jLookup d "enum" = none → jLookup d "multipleOf" = none →
       jLookup d "maximum" = none → jLookup d "minimum" = none →
       jLookup d "exclusiveMaximum" = none →
       jLookup d "exclusiveMinimum" = some (.num (b : ℚ)) →
       parseNumberSchema d = .ok (.intType [.minimumInt (b + 1)]))
    ∧ (∀ (d : Dict) (q : ℚ),
       jLookup d "type" = some (.str "number") →
       jLookup d "enum" = none → jLookup d "multipleOf" = none →
       jLookup d "maximum" = none → jLookup d "minimum" = none →
       jLookup d "exclusiveMaximum" = some (.num q) →
       parseNumberSchema d = .ok (.doubleType [.maximumDouble (nextDownQ q)]))
    ∧ (∀ (d : Dict) (q : ℚ),
       jLookup d "type" = some (.str "number") →
       jLookup d "enum" = none → jLookup d "multipleOf" = none →
       jLookup d "maximum" = none → jLookup d "minimum" = none →
       jLookup d "exclusiveMaximum" = none →
       jLookup d "exclusiveMinimum" = some (.num q) →
       parseNumberSchema d = .ok (.doubleType [.minimumDouble (nextUpQ q)]))
    ∧ nextUpQ 1 = 1 + (2 : ℚ) ^ (-52 : ℤ)
    ∧ isF64 (nextUpQ 1)
    ∧ 1 < nextUpQ 1
    ∧ (∀ r : ℚ, isF64 r → 1 < r → nextUpQ 1 ≤ r) := by
  refine ⟨?_, ?_, ?_, ?_, nextUpQ_one, ?_, ?_, ?_⟩
  · intro d b htype henum hmul hmax hmin hemax
    simp [parseNumberSchema, henum, asStringList, hmul, hmax, hmin, hemax,
      asDouble, asString, htype, swiftInt_intCast]
  · intro d b htype henum hmul hmax hmin hemax hemin
    simp [parseNumberSchema, henum, asStringList, hmul, hmax, hmin, hemax, hemin,
      asDouble, asString, htype, swiftInt_intCast]
  · intro d q htype henum hmul hmax hmin hemax
    simp [parseNumberSchema, henum, asStringList, hmul, hmax, hmin, hemax,
      asDouble, asString, htype]
  · intro d q htype henum hmul hmax hmin hemax hemin
    simp [parseNumberSchema, henum, asStringList, hmul, hmax, hmin, hemax, hemin,
      asDouble, asString, htype]
  · rw [nextUpQ_one]; exact isF64_one_add_ulp
  · rw [nextUpQ_one]
    have : (0:ℚ) < (2 : ℚ) ^ (-52 : ℤ) := zpow_pos (by norm_num) _
    linarith
  · intro r hr h1
    rw [nextUpQ_one]
    exact isF64_least_above_one r hr h1

/-- Witness for C8: `{type: "integer", exclusiveMaximum: 10}` yields the
inclusive maximum `9`; `{type: "number", exclusiveMinimum: 1}` yields the
inclusive minimum `nextUp 1`; and the minimality conclusion applied to
the concrete representable value `1 + 2 ^ (-51)`. -/
theorem spec_c8_witness :
    parseNumberSchema [("type", .str "integer"), ("exclusiveMaximum", .num 10)]
      = .ok (.intType [.maximumInt 9])
    ∧ parseNumberSchema [("type", .str "number"), ("exclusiveMinimum", .num 1)]
      = .ok (.doubleType [.minimumDouble (nextUpQ 1)])
    ∧ nextUpQ 1 ≤ 1 + (2 : ℚ) ^ (-51 : ℤ) := by
  refine ⟨?_, ?_, ?_⟩
  · have h := spec_c8.1 [("type", .str "integer"), ("exclusiveMaximum", .num 10)]
      10 rfl rfl rfl rfl rfl (by simp [jLookup])
    simpa using h
  · exact spec_c8.2.2.2.1 [("type", .str "number"), ("exclusiveMinimum", .num 1)]
      1 rfl rfl rfl rfl rfl rfl rfl
  · refine spec_c8.2.2.2.2.2.2.2 (1 + (2 : ℚ) ^ (-51 : ℤ)) ?_ ?_
    · refine ⟨2 ^ 51 + 1, -51, by norm_num, by norm_num, by norm_num, ?_⟩
      have h : (2 : ℚ) ^ (-51 : ℤ) = ((2 ^ 51 : ℚ))⁻¹ := by
        rw [zpow_neg]
        norm_num
      push_cast
      rw [h]
      field_simp
      norm_num
    · have : (0:ℚ) < (2 : ℚ) ^ (-51 : ℤ) := zpow_pos (by norm_num) _
      linarith
/-- The entry a well-formed non-trailing message maps to, following the
claim's words: system goes to `Instructions` carrying the message content
plus a `ToolDefinition` for every registered tool, user goes to `Prompt`,
assistant goes to `Response`. -/
def specEntryOf (tools : List JSITool) (m : Dict) : TEntry :=
  let content := (asString (jLookup m "content")).getD ""
  match (asString (jLookup m "role")).getD "" with
  | "system" => .instructions [.text content] (toolDefinitionsOf tools)
  | "user" => .prompt [.text content]
  | _ => .response [] [.text content]

/-- A message is well formed when it has string `role` and `content`
values and the role is one of the three recognized kinds. -/
def wfMsg (m : Dict) : Bool :=
  match asString (jLookup m "role"), asString (jLookup m "content") with
  | some r, some _ => r == "system" || r == "user" || r == "assistant"
  | _, _ => false

/-- Helper for C9: a well-formed message translates to exactly the entry
prescribed by the claim. -/
theorem entryOfMessage_wf (tools : List JSITool) {m : Dict} (h : wfMsg m = true) :
    entryOfMessage tools m = .ok (specEntryOf tools m) := by
  unfold wfMsg at h
  cases hr : asString (jLookup m "role") with
  | none => rw [hr] at h; simp at h
  | some r =>
    cases hc : asString (jLookup m "content") with
    | none => rw [hr, hc] at h; simp at h
    | some c =>
      rw [hr, hc] at h
      simp only [Bool.or_eq_true, beq_iff_eq] at h
      unfold entryOfMessage specEntryOf
      rw [hr, hc]
      rcases h with (h | h) | h <;> subst h <;> simp

/-- Helper for C9: a list of well-formed messages translates to the
claimed entry list, one entry per message. -/
theorem entriesOfMessages_wf {tools : List JSITool} {msgs : List Dict}
    (h : ∀ m ∈ msgs, wfMsg m = true) :
    entriesOfMessages tools msgs = .ok (msgs.map (specEntryOf tools)) := by
  induction msgs with
  | nil => rfl
  | cons m rest ih =>
    have h1 := entryOfMessage_wf tools (h m (by simp))
    have h2 := ih (fun x hx => h x (by simp [hx]))
    simp [entriesOfMessages, h1, h2]

/-- Helper for C9: the loop fails with `UnknownRole` naming the role of
the first offending message. -/
theorem entriesOfMessages_unknown_role {tools : List JSITool}
    {pre post : List Dict} {m : Dict} {r c : String}
    (hpre : ∀ p ∈ pre, wfMsg p = true)
    (hr : asString (jLookup m "role") = some r)
    (hc : asString (jLookup m "content") = some c)
    (hbad : r ≠ "system" ∧ r ≠ "user" ∧ r ≠ "assistant") :
    entriesOfMessages tools (pre ++ m :: post) = .error (.invalidMessage r) := by
  induction pre with
  | nil =>
    have he : entryOfMessage tools m = .error (.invalidMessage r) := by
      simp only [entryOfMessage, hr, hc]
      obtain ⟨h1, h2, h3⟩ := hbad
      split
      · exact absurd rfl h1
      · exact absurd rfl h2
      · exact absurd rfl h3
      · rfl
    simp [entriesOfMessages, he]
  | cons p rest ih =>
    have h1 := entryOfMessage_wf tools (hpre p (by simp))
    have h2 := ih (fun x hx => hpre x (by simp [hx]))
    simp [entriesOfMessages, h1, h2]

/-- Claim C9: transcript building fails with `EmptyMessageList` on an
empty message list and with `LastMessageNotUser` when the last message's
role is not user; otherwise the trailing user message's content becomes
the separately returned prompt and every other message maps to exactly
one entry (system to `Instructions` with content plus every registered
tool's `ToolDefinition`, user to `Prompt`, assistant to `Response`),
while any other role fails with `UnknownRole` naming the offending role
string. -/
theorem spec_c9 :
    (∀ tools, createTranscriptAndPrompt [] tools =
       .error (.invalidMessage "Messages array cannot be empty"))
    ∧ (∀ msgs (tools : List JSITool) lastMessage r, msgs.getLast? = some lastMessage →
        asString (jLookup lastMessage "role") = some r → r ≠ "user" →
        createTranscriptAndPrompt msgs tools =
          .error (.invalidMessage "Last message must be from user role"))
    ∧ (∀ msgs (tools : List JSITool) lastMessage c, msgs.getLast? = some lastMessage →
        asString (jLookup lastMessage "role") = some "user" →
        asString (jLookup lastMessage "content") = some c →
        (∀ m ∈ msgs.dropLast, wfMsg m = true) →
        createTranscriptAndPrompt msgs tools =
          .ok (msgs.dropLast.map (specEntryOf tools), c))
    ∧ (∀ msgs (tools : List JSITool) lastMessage c pre m post r mc,
        msgs.getLast? = some lastMessage →
        asString (jLookup lastMessage "role") = some "user" →
        asString (jLookup lastMessage "content") = some c →
        msgs.dropLast = pre ++ m :: post →
        (∀ p ∈ pre, wfMsg p = true) →
        asString (jLookup m "role") = some r →
        asString (jLookup m "content") = some mc →
        r ≠ "system" → r ≠ "user" → r ≠ "assistant" →
        createTranscriptAndPrompt msgs tools = .error (.invalidMessage r)) := by
  refine ⟨fun tools => rfl, ?_, ?_, ?_⟩
  · intro msgs tools lastMessage r hlast hr hne
    simp only [createTranscriptAndPrompt, hlast, hr]
    cases hc : asString (jLookup lastMessage "content") <;> simp [hc, hne]
  · intro msgs tools lastMessage c hlast hr hc hwf
    simp only [createTranscriptAndPrompt, hlast, hr, hc]
    rw [entriesOfMessages_wf hwf]
    simp
  · intro msgs tools lastMessage c pre m post r mc hlast hr hc hsplit hpre hmr hmc h1 h2 h3
    simp only [createTranscriptAndPrompt, hlast, hr, hc, hsplit]
    rw [entriesOfMessages_unknown_role hpre hmr hmc ⟨h1, h2, h3⟩]
    simp

/-- Witness for C9 at concrete message lists: the empty list, a list
ending in an assistant message, a system/assistant/user conversation, and
a conversation containing an unrecognized role. -/
theorem spec_c9_witness :
    createTranscriptAndPrompt [] [] =
      .error (.invalidMessage "Messages array cannot be empty")
    ∧ createTranscriptAndPrompt [[("role", .str "assistant"), ("content", .str "x")]] [] =
        .error (.invalidMessage "Last message must be from user role")
    ∧ createTranscriptAndPrompt
        [[("role", .str "system"), ("content", .str "be nice")],
         [("role", .str "assistant"), ("content", .str "ok")],
         [("role", .str "user"), ("content", .str "hi")]] [] =
        .ok ([.instructions [.text "be nice"] (toolDefinitionsOf []),
              .response [] [.text "ok"]], "hi")
    ∧ createTranscriptAndPrompt
        [[("role", .str "tool"), ("content", .str "z")],
         [("role", .str "user"), ("content", .str "hi")]] [] =
        .error (.invalidMessage "tool") := by
  refine ⟨spec_c9.1 [], ?_, ?_, ?_⟩
  · exact spec_c9.2.1 _ [] _ "assistant" rfl rfl (by decide)
  · exact spec_c9.2.2.1 _ [] _ "hi" rfl rfl rfl (by decide)
  · exact spec_c9.2.2.2 _ [] _ "hi" [] _ [] "tool" "z" rfl rfl rfl rfl
      (by simp) rfl rfl (by decide) (by decide) (by decide)
/-- A `cancelStream` call occurs in the trace. -/
def hasCancelCall : List Act → Bool
  | [] => false
  | .cancelCall :: _ => true
  | _ :: tr => hasCancelCall tr

/-- Membership of an action in a trace. -/
def traceHas : List Act → Act → Bool
  | [], _ => false
  | a :: tr, b => a == b || traceHas tr b

/-- `afterCancel p tr = true` iff some action satisfying `p` was recorded
after some `cancelStream` call (traces are most recent first). -/
def afterCancel (p : Act → Bool) : List Act → Bool
  | [] => false
  | a :: tr => (p a && hasCancelCall tr) || afterCancel p tr

/-- The master invariant of a streaming run under well-formed schedules:
a registered session is in the registry, cancelled, or finished; an
uncancelled task has seen no `cancelStream` call unless it already
finished; while the task sits between its cancellation check and its
`onComplete` call, no cancellation has been recorded unless the
`raceCancelDuringEmit` ghost flag is set; outside that race no completion
event ever follows a cancellation; at most one terminal event ever, and
none before the task's terminal emission; and without the stale-insert
race the registry is empty once the task is done. -/
def StreamInv (σ : StreamState) : Prop :=
  (σ.registered = true → σ.inRegistry = true ∨ σ.cancelled = true ∨ σ.pc = .done)
  ∧ (σ.cancelled = false → hasCancelCall σ.trace = false ∨ σ.pc = .done)
  ∧ ((σ.pc = .emitComplete ∧ σ.raceCancelDuringEmit = false) →
      hasCancelCall σ.trace = false)
  ∧ (σ.raceCancelDuringEmit = false →
      afterCancel (fun a => a == Act.complete) σ.trace = false)
  ∧ ((σ.pc = .cleanup ∨ σ.pc = .done) → terminalCount σ.trace ≤ 1)
  ∧ ((σ.pc ≠ .cleanup ∧ σ.pc ≠ .done) → terminalCount σ.trace = 0)
  ∧ (σ.raceInsert = false → σ.pc = .done → σ.inRegistry = false)

/-- Terminal-event count of an extended trace. -/
theorem terminalCount_cons (a : Act) (tr : List Act) :
    terminalCount (a :: tr) = (if isTerminal a then 1 else 0) + terminalCount tr := by
  simp only [terminalCount, List.countP_cons]
  split <;> omega

/-- The initial state satisfies the master invariant. -/
theorem streamInv_init : StreamInv streamInit := by
  refine ⟨?_, ?_, fun _ => rfl, fun _ => rfl, ?_, ?_, ?_⟩ <;> intro h
  · cases h
  · exact Or.inl rfl
  · rcases h with h | h <;> cases h
  · rfl
  · intro h2; cases h2

/-- One scheduled step preserves the master invariant, provided a cancel
step only occurs once the session is registered. -/
theorem streamInv_step (P : StreamParams) (σ : StreamState) (l : Lab)
    (hwf : l = .cancel → σ.registered = true)
    (hinv : StreamInv σ) : StreamInv (streamStep P σ l) := by
  obtain ⟨hR, hW2, hW3, hCA, hT1, hT0, hRace⟩ := hinv
  cases l with
  | register =>
    refine ⟨fun _ => Or.inl rfl, hW2, hW3, hCA, hT1, hT0, ?_⟩
    intro h1 h2
    simp only [streamStep, registerStreamTask] at h1 h2 ⊢
    simp only [Bool.or_eq_false_iff, beq_eq_false_iff_ne] at h1
    exact absurd h2 h1.2
  | cancel =>
    simp only [streamStep, cancelStream]
    cases hreg : σ.inRegistry with
    | true =>
      simp only [if_true]
      refine ⟨fun _ => Or.inr (Or.inl rfl), fun hc => absurd hc (by simp), ?_, ?_, ?_, ?_, ?_⟩
      · intro ⟨hpc, hg⟩
        simp only [Bool.or_eq_false_iff, beq_eq_false_iff_ne] at hg
        exact absurd hpc hg.2
      · intro hg
        simp only [Bool.or_eq_false_iff] at hg
        simp [afterCancel, hCA hg.1]
      · intro h
        rw [terminalCount_cons]
        simpa [isTerminal] using hT1 h
      · intro h
        rw [terminalCount_cons]
        simpa [isTerminal] using hT0 h
      · intro _ _
        rfl
    | false =>
      simp only [Bool.false_eq_true, if_false]
      refine ⟨?_, ?_, ?_, ?_, ?_, ?_, ?_⟩
      · intro hre
        rcases hR hre with h | h | h
        · rw [hreg] at h; cases h
        · exact Or.inr (Or.inl h)
        · exact Or.inr (Or.inr h)
      · intro hc
        rcases hR (hwf rfl) with h | h | h
        · rw [hreg] at h; cases h
        · rw [h] at hc; cases hc
        · exact Or.inr h
      · intro ⟨hpc, hg⟩
        simp only [Bool.or_eq_false_iff, beq_eq_false_iff_ne] at hg
        exact absurd hpc hg.2
      · intro hg
        simp only [Bool.or_eq_false_iff] at hg
        simp [afterCancel, hCA hg.1]
      · intro h
        rw [terminalCount_cons]
        simpa [isTerminal] using hT1 h
      · intro h
        rw [terminalCount_cons]
        simpa [isTerminal] using hT0 h
      · intro h1 h2
        rfl
  | taskStep =>
    simp only [streamStep]
    cases hpc : σ.pc with
    | construct =>
      simp only [streamTaskStep, hpc]
      have hpre : σ.pc ≠ .cleanup ∧ σ.pc ≠ .done :=
        ⟨(by rw [hpc]; intro h; cases h), (by rw [hpc]; intro h; cases h)⟩
      cases hcon : requestConstruct P.messages P.options with
      | error e =>
        refine ⟨?_, ?_, ?_, hCA, ?_, fun _ => hT0 hpre, ?_⟩
        · intro hre
          rcases hR hre with h | h | h
          · exact Or.inl h
          · exact Or.inr (Or.inl h)
          · rw [hpc] at h; cases h
        · intro hc
          rcases hW2 hc with h | h
          · exact Or.inl h
          · rw [hpc] at h; cases h
        · intro h
          exact nomatch h.1
        · intro h; rcases h with h | h <;> cases h
        · intro _ h2; exact nomatch h2
      | ok u =>
        refine ⟨?_, ?_, ?_, hCA, ?_, fun _ => hT0 hpre, ?_⟩
        · intro hre
          rcases hR hre with h | h | h
          · exact Or.inl h
          · exact Or.inr (Or.inl h)
          · rw [hpc] at h; cases h
        · intro hc
          rcases hW2 hc with h | h
          · exact Or.inl h
          · rw [hpc] at h; cases h
        · intro h
          exact nomatch h.1
        · intro h; rcases h with h | h <;> cases h
        · intro _ h2; exact nomatch h2
    | emitting rest =>
      have hpre : σ.pc ≠ .cleanup ∧ σ.pc ≠ .done :=
        ⟨(by rw [hpc]; intro h; cases h), (by rw [hpc]; intro h; cases h)⟩
      cases rest with
      | cons chunk more =>
        simp only [streamTaskStep, hpc]
        refine ⟨?_, ?_, ?_, ?_, ?_, ?_, ?_⟩
        · intro hre
          rcases hR hre with h | h | h
          · exact Or.inl h
          · exact Or.inr (Or.inl h)
          · rw [hpc] at h; cases h
        · intro hc
          rcases hW2 hc with h | h
          · exact Or.inl (by simp [hasCancelCall, h])
          · rw [hpc] at h; cases h
        · intro h
          exact nomatch h.1
        · intro hg
          simp [afterCancel, hCA hg]
        · intro h; rcases h with h | h <;> cases h
        · intro _
          rw [terminalCount_cons]
          simpa [isTerminal] using hT0 hpre
        · intro _ h2; exact nomatch h2
      | nil =>
        simp only [streamTaskStep, hpc]
        refine ⟨?_, ?_, ?_, hCA, ?_, fun _ => hT0 hpre, ?_⟩
        · intro hre
          rcases hR hre with h | h | h
          · exact Or.inl h
          · exact Or.inr (Or.inl h)
          · rw [hpc] at h; cases h
        · intro hc
          rcases hW2 hc with h | h
          · exact Or.inl h
          · rw [hpc] at h; cases h
        · intro h
          exact nomatch h.1
        · intro h; rcases h with h | h <;> cases h
        · intro _ h2; exact nomatch h2
    | finish failure =>
      have hpre : σ.pc ≠ .cleanup ∧ σ.pc ≠ .done :=
        ⟨(by rw [hpc]; intro h; cases h), (by rw [hpc]; intro h; cases h)⟩
      cases failure with
      | some message =>
        simp only [streamTaskStep, hpc]
        refine ⟨?_, ?_, ?_, ?_, ?_, ?_, ?_⟩
        · intro hre
          rcases hR hre with h | h | h
          · exact Or.inl h
          · exact Or.inr (Or.inl h)
          · rw [hpc] at h; cases h
        · intro hc
          rcases hW2 hc with h | h
          · exact Or.inl (by simp [hasCancelCall, h])
          · rw [hpc] at h; cases h
        · intro h
          exact nomatch h.1
        · intro hg
          simp [afterCancel, hCA hg]
        · intro _
          rw [terminalCount_cons]
          have h0 := hT0 hpre
          simp [isTerminal, h0]
        · intro h; exact absurd rfl h.1
        · intro _ h2; exact nomatch h2
      | none =>
        simp only [streamTaskStep, hpc]
        cases hcanc : σ.cancelled with
        | true =>
          simp only [if_true]
          refine ⟨fun _ => Or.inr (Or.inl rfl), fun hc => absurd hc (by simp),
            ?_, hCA, ?_, fun h => absurd rfl h.1, ?_⟩
          · intro h
            exact nomatch h.1
          · intro _
            have h0 := hT0 hpre
            simp [h0]
          · intro _ h2; exact nomatch h2
        | false =>
          simp only [Bool.false_eq_true, if_false]
          have hnocc : hasCancelCall σ.trace = false := by
            rcases hW2 hcanc with h | h
            · exact h
            · rw [hpc] at h; cases h
          refine ⟨?_, ?_, fun _ => hnocc, hCA, ?_, fun _ => hT0 hpre, ?_⟩
          · intro hre
            rcases hR hre with h | h | h
            · exact Or.inl h
            · rw [hcanc] at h; cases h
            · rw [hpc] at h; cases h
          · intro _
            exact Or.inl hnocc
          · intro h; rcases h with h | h <;> cases h
          · intro _ h2; exact nomatch h2
    | emitComplete =>
      simp only [streamTaskStep, hpc]
      have hpre : σ.pc ≠ .cleanup ∧ σ.pc ≠ .done :=
        ⟨(by rw [hpc]; intro h; cases h), (by rw [hpc]; intro h; cases h)⟩
      refine ⟨?_, ?_, ?_, ?_, ?_, fun h => absurd rfl h.1, ?_⟩
      · intro hre
        rcases hR hre with h | h | h
        · exact Or.inl h
        · exact Or.inr (Or.inl h)
        · rw [hpc] at h; cases h
      · intro hc
        rcases hW2 hc with h | h
        · exact Or.inl (by simp [hasCancelCall, h])
        · rw [hpc] at h; cases h
      · intro h
        exact nomatch h.1
      · intro hg
        have hnocc := hW3 ⟨hpc, hg⟩
        simp [afterCancel, hCA hg, hnocc]
      · intro _
        rw [terminalCount_cons]
        have h0 := hT0 hpre
        simp [isTerminal, h0]
      · intro _ h2; exact nomatch h2
    | cleanup =>
      simp only [streamTaskStep, hpc]
      refine ⟨fun _ => Or.inr (Or.inr rfl), fun _ => Or.inr rfl,
        ?_, hCA, fun _ => hT1 (Or.inl hpc), fun h => absurd rfl h.2, fun _ _ => rfl⟩
      intro h
      exact nomatch h.1
    | done =>
      simp only [streamTaskStep, hpc]
      exact ⟨hR, hW2, hW3, hCA, hT1, hT0, hRace⟩

/-- Only the registration step sets the `registered` flag. -/
theorem streamStep_registered (P : StreamParams) (σ : StreamState) (l : Lab) :
    (streamStep P σ l).registered = (σ.registered || (l == Lab.register)) := by
  cases l with
  | register => simp [streamStep, registerStreamTask]
  | cancel => cases hreg : σ.inRegistry <;> simp [streamStep, cancelStream, hreg]
  | taskStep =>
    cases hpc : σ.pc with
    | construct =>
      simp only [streamStep, streamTaskStep, hpc]
      cases requestConstruct P.messages P.options <;> simp
    | emitting rest => cases rest <;> simp [streamStep, streamTaskStep, hpc]
    | finish failure =>
      cases failure with
      | some m => simp [streamStep, streamTaskStep, hpc]
      | none =>
        simp only [streamStep, streamTaskStep, hpc]
        cases σ.cancelled <;> simp
    | emitComplete => simp [streamStep, streamTaskStep, hpc]
    | cleanup => simp [streamStep, streamTaskStep, hpc]
    | done => simp [streamStep, streamTaskStep, hpc]

/-- After registration every remaining schedule is well formed. -/
theorem wfSched_true (sched : List Lab) : wfSched true sched = true := by
  induction sched with
  | nil => rfl
  | cons l rest ih => simpa [wfSched] using ih

/-- The master invariant is preserved by a whole well-formed schedule. -/
theorem streamInv_run (P : StreamParams) (sched : List Lab) :
    ∀ σ : StreamState, wfSched σ.registered sched = true → StreamInv σ →
      StreamInv (sched.foldl (streamStep P) σ) := by
  induction sched with
  | nil => exact fun σ _ h => h
  | cons l rest ih =>
    intro σ hwf hinv
    have hcanc : l = .cancel → σ.registered = true := by
      intro hl
      subst hl
      cases hr : σ.registered with
      | true => rfl
      | false => rw [hr] at hwf; simp [wfSched] at hwf
    have hstep := streamInv_step P σ l hcanc hinv
    have hwf' : wfSched (streamStep P σ l).registered rest = true := by
      rw [streamStep_registered]
      cases hr : σ.registered with
      | true => exact wfSched_true rest
      | false =>
        cases l with
        | register => simpa using wfSched_true rest
        | cancel => rw [hr] at hwf; simp [wfSched] at hwf
        | taskStep =>
          rw [hr] at hwf
          simpa [wfSched] using hwf
    simpa [List.foldl_cons] using ih (streamStep P σ l) hwf' hstep

/-- The master invariant holds at the end of every well-formed run. -/
theorem streamInv_streamRun (P : StreamParams) (sched : List Lab)
    (hwf : wfSched false sched = true) : StreamInv (streamRun P sched) :=
  streamInv_run P sched streamInit hwf streamInv_init

/-- Invariant of runs that never cancel: the task stays uncancelled and
emits exactly one terminal event by the time it finishes. -/
def NCInv (σ : StreamState) : Prop :=
  σ.cancelled = false
  ∧ ((σ.pc ≠ .cleanup ∧ σ.pc ≠ .done) → terminalCount σ.trace = 0)
  ∧ ((σ.pc = .cleanup ∨ σ.pc = .done) → terminalCount σ.trace = 1)

/-- A non-cancel step preserves `NCInv`. -/
theorem ncInv_step (P : StreamParams) (σ : StreamState) (l : Lab)
    (hl : l ≠ .cancel) (hinv : NCInv σ) : NCInv (streamStep P σ l) := by
  obtain ⟨hc, h0, h1⟩ := hinv
  cases l with
  | cancel => exact absurd rfl hl
  | register => exact ⟨hc, h0, h1⟩
  | taskStep =>
    simp only [streamStep]
    cases hpc : σ.pc with
    | construct =>
      have hpre := h0 ⟨(by rw [hpc]; intro h; cases h), (by rw [hpc]; intro h; cases h)⟩
      simp only [streamTaskStep, hpc]
      cases requestConstruct P.messages P.options with
      | error e =>
        exact ⟨hc, fun _ => hpre, fun h => by rcases h with h | h <;> cases h⟩
      | ok u =>
        exact ⟨hc, fun _ => hpre, fun h => by rcases h with h | h <;> cases h⟩
    | emitting rest =>
      have hpre := h0 ⟨(by rw [hpc]; intro h; cases h), (by rw [hpc]; intro h; cases h)⟩
      cases rest with
      | cons chunk more =>
        simp only [streamTaskStep, hpc]
        refine ⟨hc, fun _ => ?_, fun h => by rcases h with h | h <;> cases h⟩
        rw [terminalCount_cons]
        simpa [isTerminal] using hpre
      | nil =>
        simp only [streamTaskStep, hpc]
        exact ⟨hc, fun _ => hpre, fun h => by rcases h with h | h <;> cases h⟩
    | finish failure =>
      have hpre := h0 ⟨(by rw [hpc]; intro h; cases h), (by rw [hpc]; intro h; cases h)⟩
      cases failure with
      | some message =>
        simp only [streamTaskStep, hpc]
        refine ⟨hc, fun h => absurd rfl h.1, fun _ => ?_⟩
        rw [terminalCount_cons]
        simp [isTerminal, hpre]
      | none =>
        simp only [streamTaskStep, hpc, hc, Bool.false_eq_true, if_false]
        exact ⟨rfl, fun _ => hpre, fun h => by rcases h with h | h <;> cases h⟩
    | emitComplete =>
      have hpre := h0 ⟨(by rw [hpc]; intro h; cases h), (by rw [hpc]; intro h; cases h)⟩
      simp only [streamTaskStep, hpc]
      refine ⟨hc, fun h => absurd rfl h.1, fun _ => ?_⟩
      rw [terminalCount_cons]
      simp [isTerminal, hpre]
    | cleanup =>
      simp only [streamTaskStep, hpc]
      exact ⟨hc, fun h => absurd rfl h.2, fun _ => h1 (Or.inl hpc)⟩
    | done =>
      simp only [streamTaskStep, hpc]
      exact ⟨hc, h0, h1⟩

/-- `NCInv` is preserved by schedules that contain no cancel step. -/
theorem ncInv_run (P : StreamParams) (sched : List Lab) :
    ∀ σ : StreamState, (∀ l ∈ sched, l ≠ Lab.cancel) → NCInv σ →
      NCInv (sched.foldl (streamStep P) σ) := by
  induction sched with
  | nil => exact fun σ _ h => h
  | cons l rest ih =>
    intro σ hnc hinv
    have hstep := ncInv_step P σ l (hnc l (by simp)) hinv
    simpa [List.foldl_cons] using
      ih (streamStep P σ l) (fun x hx => hnc x (by simp [hx])) hstep

/-- Invariant of runs whose request construction fails with description
`msg`: before the terminal step no event has been emitted; once the task
passes its terminal step the trace holds exactly one terminal event,
namely the error event carrying `msg`. -/
def ErrInv (msg : String) (σ : StreamState) : Prop :=
  ((σ.pc = .construct ∨ σ.pc = .finish (some msg))
      ∧ terminalCount σ.trace = 0 ∧ traceHas σ.trace (.error msg) = false)
  ∨ ((σ.pc = .cleanup ∨ σ.pc = .done)
      ∧ terminalCount σ.trace = 1 ∧ traceHas σ.trace (.error msg) = true)

/-- Every step preserves `ErrInv` when construction fails. -/
theorem errInv_step (P : StreamParams) (σ : StreamState) (l : Lab) (e : AppleLLMError)
    (hcon : requestConstruct P.messages P.options = .error e)
    (hinv : ErrInv (errMsg e) σ) : ErrInv (errMsg e) (streamStep P σ l) := by
  cases l with
  | register => exact hinv
  | cancel =>
    simp only [streamStep, cancelStream]
    cases hreg : σ.inRegistry with
    | true =>
      simp only [if_true]
      rcases hinv with ⟨hpc, hcount, hhas⟩ | ⟨hpc, hcount, hhas⟩
      · exact Or.inl ⟨hpc, by rw [terminalCount_cons]; simp [isTerminal, hcount],
          by simp [traceHas, hhas]⟩
      · exact Or.inr ⟨hpc, by rw [terminalCount_cons]; simp [isTerminal, hcount],
          by simp [traceHas, hhas]⟩
    | false =>
      simp only [Bool.false_eq_true, if_false]
      rcases hinv with ⟨hpc, hcount, hhas⟩ | ⟨hpc, hcount, hhas⟩
      · exact Or.inl ⟨hpc, by rw [terminalCount_cons]; simp [isTerminal, hcount],
          by simp [traceHas, hhas]⟩
      · exact Or.inr ⟨hpc, by rw [terminalCount_cons]; simp [isTerminal, hcount],
          by simp [traceHas, hhas]⟩
  | taskStep =>
    simp only [streamStep]
    rcases hinv with ⟨hpc, hcount, hhas⟩ | ⟨hpc, hcount, hhas⟩
    · rcases hpc with hpc | hpc
      · simp only [streamTaskStep, hpc, hcon]
        exact Or.inl ⟨Or.inr rfl, hcount, hhas⟩
      · simp only [streamTaskStep, hpc]
        refine Or.inr ⟨Or.inl rfl, ?_, ?_⟩
        · rw [terminalCount_cons]
          simp [isTerminal, hcount]
        · simp [traceHas]
    · rcases hpc with hpc | hpc
      · simp only [streamTaskStep, hpc]
        exact Or.inr ⟨Or.inr rfl, hcount, hhas⟩
      · simp only [streamTaskStep, hpc]
        exact Or.inr ⟨Or.inr hpc, hcount, hhas⟩

/-- `ErrInv` is preserved by whole schedules. -/
theorem errInv_run (P : StreamParams) (sched : List Lab) (e : AppleLLMError)
    (hcon : requestConstruct P.messages P.options = .error e) :
    ∀ σ : StreamState, ErrInv (errMsg e) σ →
      ErrInv (errMsg e) (sched.foldl (streamStep P) σ) := by
  induction sched with
  | nil => exact fun σ h => h
  | cons l rest ih =>
    intro σ hinv
    simpa [List.foldl_cons] using ih (streamStep P σ l) (errInv_step P σ l e hcon hinv)

/-- Claim C2 (amended): in every well-formed interleaving a streaming
session delivers at most one terminal signal — never both a completion
and an error — and a session that is never cancelled and runs to the end
delivers exactly one terminal signal.  After a `cancelStream` call for
its id no completion event is delivered, unless the cancellation lands
in the unsynchronized window between the task's `!Task.isCancelled` read
(line 141) and its `onComplete` call (line 142) — the
`raceCancelDuringEmit` ghost flag marks exactly that interleaving.  (As
stated the claim also forbade error events after cancellation; the
code's catch block emits `onError` without a cancellation check, see the
counterexample.) -/
theorem spec_c2 :
    (∀ (P : StreamParams) (sched : List Lab), wfSched false sched = true →
       terminalCount (streamRun P sched).trace ≤ 1
       ∧ ((streamRun P sched).raceCancelDuringEmit = false →
           afterCancel (fun a => a == Act.complete) (streamRun P sched).trace = false))
    ∧ (∀ (P : StreamParams) (sched : List Lab),
        (∀ l ∈ sched, l ≠ Lab.cancel) → (streamRun P sched).pc = .done →
        terminalCount (streamRun P sched).trace = 1) := by
  constructor
  · intro P sched hwf
    obtain ⟨_, _, _, hCA, hT1, hT0, _⟩ := streamInv_streamRun P sched hwf
    refine ⟨?_, hCA⟩
    cases hpc : (streamRun P sched).pc with
    | cleanup => exact hT1 (Or.inl hpc)
    | done => exact hT1 (Or.inr hpc)
    | construct =>
      have h0 := hT0 ⟨(by rw [hpc]; intro h; cases h), (by rw [hpc]; intro h; cases h)⟩
      omega
    | emitting rest =>
      have h0 := hT0 ⟨(by rw [hpc]; intro h; cases h), (by rw [hpc]; intro h; cases h)⟩
      omega
    | finish failure =>
      have h0 := hT0 ⟨(by rw [hpc]; intro h; cases h), (by rw [hpc]; intro h; cases h)⟩
      omega
    | emitComplete =>
      have h0 := hT0 ⟨(by rw [hpc]; intro h; cases h), (by rw [hpc]; intro h; cases h)⟩
      omega
  · intro P sched hnc hdone
    have hinv : NCInv (streamRun P sched) :=
      ncInv_run P sched streamInit hnc
        ⟨rfl, fun _ => rfl, fun h => by rcases h with h | h <;> cases h⟩
    exact hinv.2.2 (Or.inr hdone)

/-- A message list whose request construction succeeds. -/
def okStreamMessages : List Dict := [[("role", .str "user"), ("content", .str "hi")]]

/-- Runtime oracle in which the stream throws after its chunks — the
behavior a cooperative `CancellationError` produces. -/
def cancelThrowParams : StreamParams :=
  { messages := okStreamMessages, options := [], chunks := [],
    streamError := some "cancelled" }

/-- Schedule that cancels between the end of the chunk loop and the
terminal step. -/
def cancelThrowSched : List Lab :=
  [.register, .taskStep, .taskStep, .cancel, .taskStep]

/-- Witness for C2 at two concrete runs: a cancelled run that still obeys
the amended guarantees, and a full uncancelled run delivering exactly one
terminal signal. -/
theorem spec_c2_witness :
    terminalCount (streamRun cancelThrowParams cancelThrowSched).trace ≤ 1
    ∧ afterCancel (fun a => a == Act.complete)
        (streamRun cancelThrowParams cancelThrowSched).trace = false
    ∧ terminalCount (streamRun
        { messages := okStreamMessages, options := [], chunks := ["a"],
          streamError := none }
        [.register, .taskStep, .taskStep, .taskStep, .taskStep, .taskStep,
         .taskStep]).trace = 1 := by
  refine ⟨?_, ?_, ?_⟩
  · exact (spec_c2.1 cancelThrowParams cancelThrowSched (by decide)).1
  · exact (spec_c2.1 cancelThrowParams cancelThrowSched (by decide)).2 rfl
  · exact spec_c2.2 _ _ (by decide) rfl

/-- Claim C2 as stated: additionally, neither a completion nor an error
event is ever delivered after the session is cancelled. -/
def claimC2AsStated : Prop :=
  ∀ (P : StreamParams) (sched : List Lab), wfSched false sched = true →
    terminalCount (streamRun P sched).trace ≤ 1
    ∧ afterCancel isTerminal (streamRun P sched).trace = false
    ∧ ((∀ l ∈ sched, l ≠ Lab.cancel) → (streamRun P sched).pc = .done →
        terminalCount (streamRun P sched).trace = 1)

/-- Counterexample to C2 as stated: cancel the session while the task is
between its chunk loop and its terminal step, and let the stream throw
(as a cooperative `CancellationError` does) — the catch block then emits
the error event after the cancellation, because `onError` is not guarded
by `Task.isCancelled`. -/
theorem spec_c2_counterexample : ¬ claimC2AsStated := by
  intro h
  have h2 := (h cancelThrowParams cancelThrowSched (by decide)).2.1
  have h3 : afterCancel isTerminal
      (streamRun cancelThrowParams cancelThrowSched).trace = true := rfl
  rw [h3] at h2
  exact Bool.noConfusion h2

/-- The completion race the amended C2 leaves open is reachable: a
`cancelStream` scheduled between the task's `!Task.isCancelled` read and
its `onComplete` call delivers a completion event after the
cancellation, and the `raceCancelDuringEmit` ghost flag records exactly
that interleaving. -/
theorem completionAfterCancelRace_reachable :
    (streamRun { messages := okStreamMessages, options := [], chunks := [],
                 streamError := none }
      [.register, .taskStep, .taskStep, .taskStep, .cancel, .taskStep]).trace
      = [Act.complete, Act.cancelCall]
    ∧ (streamRun { messages := okStreamMessages, options := [], chunks := [],
                   streamError := none }
        [.register, .taskStep, .taskStep, .taskStep, .cancel,
         .taskStep]).raceCancelDuringEmit = true := ⟨rfl, rfl⟩

/-- Claim C3 (amended): provided the caller's registry insert is not
scheduled after the task has already finished (the `raceInsert` ghost
flag), the registry holds the session's entry only while it is running:
it is empty once the task is done, the task's cleanup step removes the
entry and finishes, `cancelStream` leaves the registry without the entry
before returning, and `cancelStream` on an absent entry is a no-op that
changes neither registry, cancellation flag, program counter nor
registration.  (As stated the claim also covered the racing interleaving,
see the counterexample.) -/
theorem spec_c3 :
    (∀ (P : StreamParams) (sched : List Lab), wfSched false sched = true →
       (streamRun P sched).raceInsert = false →
       (streamRun P sched).pc = .done → (streamRun P sched).inRegistry = false)
    ∧ (∀ σ : StreamState, (cancelStream σ).inRegistry = false)
    ∧ (∀ σ : StreamState, σ.inRegistry = false →
        (cancelStream σ).inRegistry = false ∧ (cancelStream σ).cancelled = σ.cancelled
          ∧ (cancelStream σ).pc = σ.pc ∧ (cancelStream σ).registered = σ.registered)
    ∧ (∀ (P : StreamParams) (σ : StreamState), σ.pc = .cleanup →
        (streamTaskStep P σ).inRegistry = false ∧ (streamTaskStep P σ).pc = .done) := by
  refine ⟨?_, ?_, ?_, ?_⟩
  · intro P sched hwf hrace hdone
    exact (streamInv_streamRun P sched hwf).2.2.2.2.2.2 hrace hdone
  · intro σ
    unfold cancelStream
    split
    · rfl
    · rename_i hcond
      simpa using hcond
  · intro σ h
    simp [cancelStream, h]
  · intro P σ hpc
    simp [streamTaskStep, hpc]

/-- A streaming request whose construction fails (empty message list). -/
def earlyFailParams : StreamParams :=
  { messages := [], options := [], chunks := [], streamError := none }

/-- Witness for C3 at concrete states and a concrete completed run. -/
theorem spec_c3_witness :
    (streamRun cancelThrowParams
      [.register, .taskStep, .taskStep, .taskStep, .taskStep]).inRegistry = false
    ∧ (cancelStream streamInit).inRegistry = false
    ∧ (cancelStream streamInit).pc = streamInit.pc
    ∧ (streamTaskStep cancelThrowParams
        { streamInit with pc := .cleanup }).pc = .done := by
  refine ⟨?_, spec_c3.2.1 streamInit, (spec_c3.2.2.1 streamInit rfl).2.2.1, ?_⟩
  · exact spec_c3.1 cancelThrowParams _ (by decide) rfl rfl
  · exact (spec_c3.2.2.2 cancelThrowParams { streamInit with pc := .cleanup } rfl).2

/-- Claim C3 as stated: the registry is empty whenever the task has
finished, in every well-formed interleaving. -/
def claimC3AsStated : Prop :=
  (∀ (P : StreamParams) (sched : List Lab), wfSched false sched = true →
     (streamRun P sched).pc = .done → (streamRun P sched).inRegistry = false)
  ∧ (∀ σ : StreamState, (cancelStream σ).inRegistry = false)
  ∧ (∀ σ : StreamState, σ.inRegistry = false →
      (cancelStream σ).inRegistry = false ∧ (cancelStream σ).cancelled = σ.cancelled
        ∧ (cancelStream σ).pc = σ.pc ∧ (cancelStream σ).registered = σ.registered)

/-- Counterexample to C3 as stated: the spawned task (line 108) runs
concurrently with the rest of `generateStream`; if the task finishes —
here because construction fails — before line 153 executes, the insert
stores an entry for a terminated session that nothing ever removes. -/
theorem spec_c3_counterexample : ¬ claimC3AsStated := by
  intro h
  have h2 := h.1 earlyFailParams [.taskStep, .taskStep, .taskStep, .register]
    (by decide) rfl
  have h3 : (streamRun earlyFailParams
      [.taskStep, .taskStep, .taskStep, .register]).inRegistry = true := rfl
  rw [h3] at h2
  exact Bool.noConfusion h2

/-- Claim C4 (amended): a construction-time error in a one-shot request
rejects the caller's promise with that error (one-shot requests never
touch the registry — `generateTextOutcome` has no registry state); in a
streaming request a construction error is delivered as the session's
single terminal event, an error event carrying its description, and once
the failing task finishes the registry entry is gone (absent the
stale-insert race).  (As stated the claim said no registry entry ever
exists for a failed request; the streaming insert at line 153 is
unconditional, see the counterexample.) -/
theorem spec_c4 :
    (∀ (messages : List Dict) (options : Dict) (runtime : Except String String)
        (e : AppleLLMError), requestConstruct messages options = .error e →
       generateTextOutcome messages options runtime = .error ("AppleLLM", errMsg e))
    ∧ (∀ (P : StreamParams) (sched : List Lab) (e : AppleLLMError),
        wfSched false sched = true →
        requestConstruct P.messages P.options = .error e →
        (streamRun P sched).pc = .done →
          terminalCount (streamRun P sched).trace = 1
          ∧ traceHas (streamRun P sched).trace (.error (errMsg e)) = true
          ∧ ((streamRun P sched).raceInsert = false →
              (streamRun P sched).inRegistry = false)) := by
  constructor
  · intro messages options runtime e h
    simp [generateTextOutcome, h]
  · intro P sched e hwf hcon hdone
    have herr : ErrInv (errMsg e) (streamRun P sched) :=
      errInv_run P sched e hcon streamInit (Or.inl ⟨Or.inl rfl, rfl, rfl⟩)
    have hrace := (streamInv_streamRun P sched hwf).2.2.2.2.2.2
    rcases herr with ⟨hpc, _, _⟩ | ⟨_, hcount, hhas⟩
    · rcases hpc with hpc | hpc <;> rw [hdone] at hpc <;> cases hpc
    · exact ⟨hcount, hhas, fun hr => hrace hr hdone⟩

/-- Claim C4 as stated: construction errors are raised to the caller and
no registry entry ever exists for a request whose construction failed. -/
def claimC4AsStated : Prop :=
  (∀ (messages : List Dict) (options : Dict) (runtime : Except String String)
      (e : AppleLLMError), requestConstruct messages options = .error e →
     generateTextOutcome messages options runtime = .error ("AppleLLM", errMsg e))
  ∧ (∀ (P : StreamParams) (sched : List Lab) (e : AppleLLMError),
      wfSched false sched = true →
      requestConstruct P.messages P.options = .error e →
      (streamRun P sched).inRegistry = false)

/-- Counterexample to C4 as stated: for a streaming request with an empty
message list, construction fails, yet after the caller's registration
step the registry holds the session's entry. -/
theorem spec_c4_counterexample : ¬ claimC4AsStated := by
  intro h
  have h2 := h.2 earlyFailParams [.register]
    (.invalidMessage "Messages array cannot be empty") (by decide) rfl
  have h3 : (streamRun earlyFailParams [.register]).inRegistry = true := rfl
  rw [h3] at h2
  exact Bool.noConfusion h2

/-- Witness for C4 at a concrete failing request: the one-shot rejection
and a completed streaming run emitting exactly the error event and
leaving the registry empty. -/
theorem spec_c4_witness :
    generateTextOutcome [] [] (.ok "unused") =
      .error ("AppleLLM", errMsg (.invalidMessage "Messages array cannot be empty"))
    ∧ terminalCount (streamRun earlyFailParams
        [.register, .taskStep, .taskStep, .taskStep]).trace = 1
    ∧ traceHas (streamRun earlyFailParams
        [.register, .taskStep, .taskStep, .taskStep]).trace
        (.error (errMsg (.invalidMessage "Messages array cannot be empty"))) = true
    ∧ (streamRun earlyFailParams
        [.register, .taskStep, .taskStep, .taskStep]).inRegistry = false := by
  have h := spec_c4.2 earlyFailParams [.register, .taskStep, .taskStep, .taskStep]
    (.invalidMessage "Messages array cannot be empty") (by decide) rfl rfl
  exact ⟨spec_c4.1 [] [] (.ok "unused") _ rfl, h.1, h.2.1, h.2.2 rfl⟩
